import Mathlib

/-!
# Chunk codec of the RTMP client (`rtmpclient.go`)

A shallow embedding of `recvChunk`, `sendChunk`, `chunkMessage` and
`Handshake`.

Modelling conventions.

* A Go `byte` is `Fin 256`; `+`, `<<<`, `>>>`, `&&&`, `|||` on `Fin 256` wrap
  modulo 256 exactly like the Go operators on `byte`.
* Go `int` (64 bits) and `int64` are `Int`.  The conversions `byte(x)` and
  `uint32(x)` are written out as reductions modulo `2^8` and `2^32`, and the
  `int64` sum of line 224, `chunk.message.timestamp += int64(timestamp)`, as
  a reduction modulo `2^64` (`wrapInt64`): the previous timestamp is the
  caller's and may be any `int64`.  The other sums and differences are exact:
  `chunk.streamID - 64` and the offsets of `chunkMessage` stay between 0 and
  the operand, and `length - len(data)` of line 228 is exact unless the
  length is below `len(data) - 2^63`; wherever the model returns a chunk
  that difference is not negative, so every statement about a returned chunk
  is about an exact difference.
* The `io.Reader` is the `bytes.Buffer` of the tests: the list of bytes not
  yet consumed.  `Read(p)` on an empty buffer answers `io.EOF` unless
  `len(p) = 0`; on a non-empty buffer it copies `min(len(p), available)`
  bytes, leaves the rest of `p` untouched and reports no error.
* The `io.Writer` is a `bytes.Buffer` too: the list of bytes written so far;
  `Write` appends and never fails.
* The `net.Conn` of `Handshake` is the list of segments the peer delivers,
  one per `Read` unless a segment is longer than the buffer, and the list of
  bytes written; a `Read` with nothing left to deliver is an error, and the
  results of `Write` are discarded as in the code.  The generator of
  `math/rand` and the clock are arguments.
* Pointers to messages are values; the `log` argument has no effect on the
  result and is dropped.
-/

namespace Broadcast

/-- A Go `byte`. -/
abbrev Byte := Fin 256

/-- The Go conversion `byte(x)` of an integer: its low eight bits. -/
def toByte (x : Int) : Byte := Fin.ofNat (x % 256).toNat

/-- The Go conversion `uint32(x)` of an integer: its low 32 bits. -/
def toUint32 (x : Int) : Nat := (x % 4294967296).toNat

/-- The value `binary.BigEndian.Uint32(b)` of the first four bytes of `b`. -/
def bigEndianUint32 (b : List Byte) : Nat :=
  (b.getD 3 0).val + (b.getD 2 0).val * 256 + (b.getD 1 0).val * 65536
    + (b.getD 0 0).val * 16777216

/-- The value `binary.LittleEndian.Uint32(b)` of the first four bytes of `b`. -/
def littleEndianUint32 (b : List Byte) : Nat :=
  (b.getD 0 0).val + (b.getD 1 0).val * 256 + (b.getD 2 0).val * 65536
    + (b.getD 3 0).val * 16777216

/-- The four bytes `binary.BigEndian.PutUint32(buf, v)` stores in `buf`. -/
def bigEndianPutUint32 (v : Nat) : List Byte :=
  [Fin.ofNat (v / 16777216), Fin.ofNat (v / 65536), Fin.ofNat (v / 256), Fin.ofNat v]

/-- The four bytes `binary.LittleEndian.PutUint32(buf, v)` stores in `buf`. -/
def littleEndianPutUint32 (v : Nat) : List Byte :=
  [Fin.ofNat v, Fin.ofNat (v / 256), Fin.ofNat (v / 65536), Fin.ofNat (v / 16777216)]

/-- The struct `rtmpMessage`. -/
structure rtmpMessage where
  streamID : Int
  messageType : Byte
  length : Int
  extended : Bool
  timestamp : Int
  timestampDelta : Int
  data : List Byte
  deriving DecidableEq, Repr

/-- The value `&rtmpMessage{}`: every field zero, `data` nil. -/
def rtmpMessage.zero : rtmpMessage :=
  { streamID := 0, messageType := 0, length := 0, extended := false,
    timestamp := 0, timestampDelta := 0, data := [] }

/-- The method `copyFrom`: every field of `other` but `data`. -/
def rtmpMessage.copyFrom (m other : rtmpMessage) : rtmpMessage :=
  { m with
    streamID := other.streamID
    messageType := other.messageType
    length := other.length
    extended := other.extended
    timestamp := other.timestamp
    timestampDelta := other.timestampDelta }

/-- The method `copyFromWithData`: `copyFrom`, then a copy of `other.data`. -/
def rtmpMessage.copyFromWithData (m other : rtmpMessage) : rtmpMessage :=
  { m.copyFrom other with data := other.data }

/-- The struct `rtmpChunk`. -/
structure rtmpChunk where
  fmt : Byte
  streamID : Int
  message : rtmpMessage
  deriving DecidableEq, Repr

/-! ## The reader -/

/-- The unread bytes of a `bytes.Buffer`. -/
abbrev Reader := List Byte

/-- The call `r.Read(p)` with `len(p) = n`: the bytes copied into the front of
`p` and the buffer afterwards, or `none` for `io.EOF`. -/
def Reader.Read (r : Reader) (n : Nat) : Option (List Byte × Reader) :=
  match r with
  | [] => if n = 0 then some ([], []) else none
  | _ :: _ => some (r.take n, r.drop n)

/-- The slice `buf` after `copy(buf[lo:], bs)`. -/
def writeAt (buf : List Byte) (lo : Nat) (bs : List Byte) : List Byte :=
  buf.take lo ++ bs ++ buf.drop (lo + bs.length)

/-- The call `r.Read(buf[lo:hi])`: the buffer afterwards and `buf` with the
bytes read stored from index `lo`, or `none` for `io.EOF`. -/
def readInto (r : Reader) (buf : List Byte) (lo hi : Nat) : Option (Reader × List Byte) :=
  match r.Read (hi - lo) with
  | none => none
  | some (bs, r') => some (r', writeAt buf lo bs)

/-- The statement `buf[i] = v`. -/
def setAt (buf : List Byte) (i : Nat) (v : Byte) : List Byte := buf.set i v

/-! ## Decoding: `recvChunk` -/

/-- The place where `recvChunk` gave up with an error. -/
inductive RecvError where
  | basicHeader
  | chunkStreamIDByte0
  | chunkStreamIDByte1
  | chunkStreamIDByte2
  | chunkTimestamp
  | messageLength
  | messageType
  | messageStreamID
  /-- The read of the extended timestamp (line 208); the text the code returns for
  it is that of the message stream id read, "can't read message stream id". -/
  | extendedTimestamp
  | messagePayload
  deriving DecidableEq, Repr

/-- How a call ends: with a value, with a returned error, or in a run-time
panic. -/
inductive Outcome (α : Type) where
  | ok (a : α)
  | error (e : RecvError)
  | panic
  deriving DecidableEq, Repr

/-- The callback `prevMessageFunc`.  When it is called only `fmt` and
`streamID` of the chunk are set, so these two are its arguments; `none` is
the nil pointer. -/
abbrev prevMessageFunc := Byte → Int → Option rtmpMessage

/-- The local state of `recvChunk` between its steps. -/
structure RecvState where
  r : Reader
  header : List Byte
  chunk : rtmpChunk
  timestamp : Int
  deriving DecidableEq, Repr

/-- Lines 143-166: the basic header. -/
def recvBasicHeader (r : Reader) : Outcome (Reader × List Byte × Byte × Int) :=
  let header : List Byte := List.replicate 16 0
  match readInto r header 0 1 with
  | none => .error .basicHeader
  | some (r, header) =>
    let fmt : Byte := header.getD 0 0 >>> 6
    let streamID : Int := ((header.getD 0 0 &&& 0x3f).val : Int)
    if streamID = 0 then
      match readInto r header 0 1 with
      | none => .error .chunkStreamIDByte0
      | some (r, header) =>
        .ok (r, header, fmt, (((header.getD 0 0) + 64).val : Int))
    else if streamID = 1 then
      match readInto r header 0 1 with
      | none => .error .chunkStreamIDByte1
      | some (r, header) =>
        let streamID : Int := (((header.getD 0 0) + 64).val : Int)
        match readInto r header 0 1 with
        | none => .error .chunkStreamIDByte2
        | some (r, header) =>
          .ok (r, header, fmt, streamID + (((header.getD 0 0) <<< 8).val : Int))
    else
      .ok (r, header, fmt, streamID)

/-- Lines 168-173: the working message, a copy of the previous one if any. -/
def recvInherit (prev : Option rtmpMessage) : rtmpMessage :=
  match prev with
  | none => rtmpMessage.zero
  | some p => rtmpMessage.zero.copyFromWithData p

/-- Lines 175-185: the 24-bit timestamp field of formats 0, 1 and 2. -/
def recvTimestampField (s : RecvState) : Outcome RecvState :=
  if s.chunk.fmt = 0 ∨ s.chunk.fmt = 1 ∨ s.chunk.fmt = 2 then
    let header := setAt s.header 0 0
    match readInto s.r header 1 4 with
    | none => .error .chunkTimestamp
    | some (r, header) =>
      let timestamp : Int := (bigEndianUint32 header : Int)
      let message :=
        if timestamp = 0xffffff then { s.chunk.message with extended := true }
        else s.chunk.message
      .ok { r := r, header := header, chunk := { s.chunk with message := message },
            timestamp := timestamp }
  else .ok s

/-- Lines 186-197: message length and message type of formats 0 and 1. -/
def recvLengthType (s : RecvState) : Outcome RecvState :=
  if s.chunk.fmt = 0 ∨ s.chunk.fmt = 1 then
    let header := setAt s.header 0 0
    match readInto s.r header 1 4 with
    | none => .error .messageLength
    | some (r, header) =>
      let length : Int := (bigEndianUint32 header : Int)
      let header := setAt header 0 0
      match readInto r header 0 1 with
      | none => .error .messageType
      | some (r, header) =>
        .ok { s with
              r := r, header := header,
              chunk := { s.chunk with
                message := { s.chunk.message with
                  length := length, messageType := header.getD 0 0 } } }
  else .ok s

/-- Lines 198-204: the little-endian message stream id of format 0. -/
def recvMessageStreamID (s : RecvState) : Outcome RecvState :=
  if s.chunk.fmt = 0 then
    match readInto s.r s.header 0 4 with
    | none => .error .messageStreamID
    | some (r, header) =>
      .ok { s with
            r := r, header := header,
            chunk := { s.chunk with
              message := { s.chunk.message with
                streamID := (littleEndianUint32 header : Int) } } }
  else .ok s

/-- Lines 206-212: the extended timestamp, read when the working message is
marked extended. -/
def recvExtendedTimestamp (s : RecvState) : Outcome RecvState :=
  if s.chunk.message.extended then
    match readInto s.r s.header 0 4 with
    | none => .error .extendedTimestamp
    | some (r, header) =>
      .ok { s with r := r, header := header, timestamp := (bigEndianUint32 header : Int) }
  else .ok s

/-- The result of an `int64` operation whose exact value is `x`: `x` reduced
modulo `2^64` into the range from `-2^63` to `2^63 - 1`. -/
def wrapInt64 (x : Int) : Int :=
  (x + 9223372036854775808) % 18446744073709551616 - 9223372036854775808

/-- Lines 214-225: the timestamp applied to the working message.  The sum of
line 224, `chunk.message.timestamp += int64(timestamp)`, is an `int64` sum. -/
def recvApplyTimestamp (s : RecvState) : RecvState :=
  let timestamp : Int := if s.chunk.fmt = 3 then s.chunk.message.timestampDelta else s.timestamp
  let message :=
    if s.chunk.fmt = 0 then
      { s.chunk.message with timestampDelta := 0, timestamp := timestamp }
    else
      { s.chunk.message with
        timestampDelta := timestamp
        timestamp := wrapInt64 (s.chunk.message.timestamp + timestamp) }
  { s with timestamp := timestamp, chunk := { s.chunk with message := message } }

/-- Lines 142-225: everything `recvChunk` does before it reads the payload. -/
def recvHeader (r : Reader) (prevMessage : prevMessageFunc) : Outcome RecvState :=
  match recvBasicHeader r with
  | .error e => .error e
  | .panic => .panic
  | .ok (r, header, fmt, streamID) =>
    let s : RecvState :=
      { r := r, header := header,
        chunk := { fmt := fmt, streamID := streamID,
                   message := recvInherit (prevMessage fmt streamID) },
        timestamp := 0 }
    match recvTimestampField s with
    | .error e => .error e
    | .panic => .panic
    | .ok s =>
      match recvLengthType s with
      | .error e => .error e
      | .panic => .panic
      | .ok s =>
        match recvMessageStreamID s with
        | .error e => .error e
        | .panic => .panic
        | .ok s =>
          match recvExtendedTimestamp s with
          | .error e => .error e
          | .panic => .panic
          | .ok s => .ok (recvApplyTimestamp s)

/-- Lines 227-239: the payload.  `make([]byte, lenToRead)` panics on a
negative length; a short read leaves the tail of `newData` zero. -/
def recvPayload (s : RecvState) (chunkSize : Int) : Outcome (rtmpChunk × Reader) :=
  let lenRemaining : Int := s.chunk.message.length - (s.chunk.message.data.length : Int)
  let lenToRead : Int := if lenRemaining > chunkSize then chunkSize else lenRemaining
  if lenToRead < 0 then .panic
  else
    let newData : List Byte := List.replicate lenToRead.toNat 0
    match readInto s.r newData 0 lenToRead.toNat with
    | none => .error .messagePayload
    | some (r, newData) =>
      .ok ({ s.chunk with
              message := { s.chunk.message with data := s.chunk.message.data ++ newData } }, r)

/-- The function `recvChunk`: the decoded chunk and the reader after it. -/
def recvChunk (r : Reader) (prevMessage : prevMessageFunc) (chunkSize : Int) :
    Outcome (rtmpChunk × Reader) :=
  match recvHeader r prevMessage with
  | .error e => .error e
  | .panic => .panic
  | .ok s => recvPayload s chunkSize

/-! ## Encoding: `sendChunk` -/

/-- The bytes written so far to a `bytes.Buffer`. -/
abbrev Writer := List Byte

/-- The errors `sendChunk` returns. -/
inductive SendError where
  /-- The error "streamID 0 or 1 are reserved". -/
  | reservedStreamID
  /-- The error "streamID %d is out of range". -/
  | streamIDOutOfRange
  /-- The error "extended timestamp but extended is false". -/
  | extendedIsFalse
  /-- The error "extended timestamp but timestamp fits in 3 bytes". -/
  | timestampFits
  deriving DecidableEq, Repr

/-- Lines 274-297: the basic header; `none` when the chunk stream id is out
of range, in which case nothing is written. -/
def sendBasicHeader (w : Writer) (chunk : rtmpChunk) : Option Writer :=
  if chunk.streamID < 64 then
    some (w ++ [(chunk.fmt <<< 6) ||| toByte chunk.streamID])
  else if chunk.streamID < 320 then
    some (w ++ [chunk.fmt <<< 6, toByte (chunk.streamID - 64)])
  else if chunk.streamID < 65600 then
    some (w ++ [(chunk.fmt <<< 6) ||| 1, toByte (chunk.streamID - 64),
                toByte ((chunk.streamID - 64) >>> (8 : Nat))])
  else none

/-- Lines 305-315: the 24-bit timestamp field of formats 0, 1 and 2; `none`
when the value needs the escape and the message is not marked extended. -/
def sendTimestampField (w : Writer) (buf : List Byte) (chunk : rtmpChunk) (timestamp : Int) :
    Option (Writer × List Byte) :=
  if chunk.fmt = 0 ∨ chunk.fmt = 1 ∨ chunk.fmt = 2 then
    if timestamp > 0xffffff then
      if !chunk.message.extended then none
      else
        let buf := bigEndianPutUint32 0xffffff
        some (w ++ buf.drop 1, buf)
    else
      let buf := bigEndianPutUint32 (toUint32 timestamp)
      some (w ++ buf.drop 1, buf)
  else some (w, buf)

/-- Lines 316-320: message length and message type of formats 0 and 1. -/
def sendLengthType (w : Writer) (buf : List Byte) (chunk : rtmpChunk) : Writer × List Byte :=
  if chunk.fmt = 0 ∨ chunk.fmt = 1 then
    let buf := bigEndianPutUint32 (toUint32 chunk.message.length)
    (w ++ buf.drop 1 ++ [chunk.message.messageType], buf)
  else (w, buf)

/-- Lines 321-324: the little-endian message stream id of format 0. -/
def sendMessageStreamID (w : Writer) (buf : List Byte) (chunk : rtmpChunk) :
    Writer × List Byte :=
  if chunk.fmt = 0 then
    let buf := littleEndianPutUint32 (toUint32 chunk.message.streamID)
    (w ++ buf, buf)
  else (w, buf)

/-- The function `sendChunk`: the writer afterwards and the error returned,
`none` for nil. -/
def sendChunk (w : Writer) (chunk : rtmpChunk) : Writer × Option SendError :=
  if chunk.streamID = 0 ∨ chunk.streamID = 1 then (w, some .reservedStreamID)
  else
    match sendBasicHeader w chunk with
    | none => (w, some .streamIDOutOfRange)
    | some w =>
      let timestamp : Int :=
        if chunk.fmt ≠ 0 then chunk.message.timestampDelta else chunk.message.timestamp
      let buf : List Byte := List.replicate 4 0
      match sendTimestampField w buf chunk timestamp with
      | none => (w, some .extendedIsFalse)
      | some (w, buf) =>
        let (w, buf) := sendLengthType w buf chunk
        let (w, _) := sendMessageStreamID w buf chunk
        if chunk.message.extended then
          if timestamp ≤ 0xffffff then (w, some .timestampFits)
          else
            let buf := bigEndianPutUint32 (toUint32 timestamp)
            (w ++ buf ++ chunk.message.data, none)
        else (w ++ chunk.message.data, none)

/-! ## Fragmentation: `chunkMessage` -/

/-- How the loop of `chunkMessage` ends; `chunks` are the arguments of the
calls of `chunkFunc` so far, in order. -/
inductive ChunkResult where
  /-- The loop condition became false and the function returned. -/
  | returned (chunks : List rtmpChunk)
  /-- The statement `make([]byte, lenToSend)` panicked on a negative length. -/
  | panic (chunks : List rtmpChunk)
  /-- The iterations allowed were used up before the loop ended. -/
  | outOfFuel
  deriving DecidableEq, Repr

/-- Lines 248-266: the loop, run for at most `fuel` iterations from
`startOffset`. -/
def chunkLoop (message : rtmpMessage) (newStreamID : Int) (chunkSize : Int) :
    Nat → Nat → List rtmpChunk → ChunkResult
  | fuel, startOffset, chunks =>
    if startOffset < message.data.length then
      match fuel with
      | 0 => .outOfFuel
      | fuel + 1 =>
        let fmt : Byte := if startOffset > 0 then 3 else 0
        let lenToSend : Int := (message.data.length : Int) - (startOffset : Int)
        let lenToSend : Int := if lenToSend > chunkSize then chunkSize else lenToSend
        if lenToSend < 0 then .panic chunks
        else
          let data := (message.data.drop startOffset).take lenToSend.toNat
          let chunk : rtmpChunk :=
            { fmt := fmt, streamID := newStreamID,
              message := { rtmpMessage.zero.copyFrom message with data := data } }
          chunkLoop message newStreamID chunkSize fuel (startOffset + lenToSend.toNat)
            (chunks ++ [chunk])
    else .returned chunks

/-- The function `chunkMessage`.  The callback `chunkStreamIDFunc` is a state
transformer on the caller's state `σ`; the calls of `chunkFunc` are the
chunks of the result. -/
def chunkMessage {σ : Type} (message : rtmpMessage) (chunkStreamIDFunc : σ → Int × σ)
    (s : σ) (chunkSize : Int) (fuel : Nat) : ChunkResult × σ :=
  let startOffset : Nat := 0
  let (newStreamID, s) := chunkStreamIDFunc s
  (chunkLoop message newStreamID chunkSize fuel startOffset [], s)

/-! ## The wire format as the specification words it

Byte values are natural numbers here, so that nothing below depends on how
the code computes a byte. -/

/-- The basic header of section 4.3 of the specification, as byte values: the
shortest of the three encodings of the chunk stream id `id` under format
`fmt`. -/
def basicHeaderSpec (fmt id : Nat) : List Nat :=
  if id ≤ 63 then [(fmt <<< 6) ||| id]
  else if id ≤ 319 then [fmt <<< 6, id - 64]
  else [(fmt <<< 6) ||| 1, (id - 64) &&& 0xFF, (id - 64) >>> 8]

/-- The three-byte big-endian encoding of `n`, most significant byte first. -/
def be24Spec (n : Nat) : List Nat := [n / 65536 % 256, n / 256 % 256, n % 256]

/-- The four-byte big-endian encoding of `n`, most significant byte first. -/
def be32Spec (n : Nat) : List Nat :=
  [n / 16777216 % 256, n / 65536 % 256, n / 256 % 256, n % 256]

/-- The four-byte little-endian encoding of `n`, least significant byte
first. -/
def le32Spec (n : Nat) : List Nat :=
  [n % 256, n / 256 % 256, n / 65536 % 256, n / 16777216 % 256]

/-- The bytes that follow the basic header, in the wire order of section 4.3
of the specification: timestamp field, length and type, message stream id,
extended timestamp, payload. -/
def wireLayoutSpec (fmt v length messageType streamID : Nat) (extended : Bool)
    (data : List Nat) : List Nat :=
  (if fmt ≤ 2 then be24Spec (min v 0xFFFFFF) else [])
    ++ (if fmt ≤ 1 then be24Spec length ++ [messageType] else [])
    ++ (if fmt = 0 then le32Spec streamID else [])
    ++ (if extended then be32Spec v else [])
    ++ data

/-- The timestamp value a chunk puts on the wire: the absolute timestamp for
format 0, the delta for every other format. -/
def timestampToSend (chunk : rtmpChunk) : Int :=
  if chunk.fmt = 0 then chunk.message.timestamp else chunk.message.timestampDelta

/-! ## Fragmentation as the specification words it -/

/-- The slice `data[lo .. hi)`. -/
def sliceSpec (data : List Byte) (lo hi : Nat) : List Byte := (data.take hi).drop lo

/-- The number of chunks of an `n`-byte payload at chunk size `N`: `n / N`
rounded up. -/
def fragmentCount (n N : Nat) : Nat := (n + N - 1) / N

/-- Chunk number `i` (from zero) of message `m` on chunk stream `c` at chunk
size `N`: format 0 for the first and 3 for the others, the header fields of
`m`, and the payload bytes `i * N .. min ((i + 1) * N) n`. -/
def fragmentSpec (m : rtmpMessage) (c : Int) (N i : Nat) : rtmpChunk :=
  { fmt := if i = 0 then 0 else 3
    streamID := c
    message :=
      { streamID := m.streamID, messageType := m.messageType, length := m.length,
        extended := m.extended, timestamp := m.timestamp,
        timestampDelta := m.timestampDelta,
        data := sliceSpec m.data (i * N) (min ((i + 1) * N) m.data.length) } }

/-! ## The chunk header on the wire as the specification words it -/

/-- The value of three bytes read as a big-endian number. -/
def be24Value (t1 t2 t3 : Byte) : Nat := t1.val * 65536 + t2.val * 256 + t3.val

/-- The value of four bytes read as a big-endian number. -/
def be32Value (e1 e2 e3 e4 : Byte) : Nat :=
  e1.val * 16777216 + e2.val * 65536 + e3.val * 256 + e4.val

/-- The value of four bytes read as a little-endian number. -/
def le32Value (s1 s2 s3 s4 : Byte) : Nat :=
  s1.val + s2.val * 256 + s3.val * 65536 + s4.val * 16777216

/-- The bytes of the fields a chunk header can carry, whether or not its
format carries them. -/
structure WireChunk where
  b : Byte
  x : Byte
  y : Byte
  t1 : Byte
  t2 : Byte
  t3 : Byte
  l1 : Byte
  l2 : Byte
  l3 : Byte
  ty : Byte
  s1 : Byte
  s2 : Byte
  s3 : Byte
  s4 : Byte
  e1 : Byte
  e2 : Byte
  e3 : Byte
  e4 : Byte

/-- The format: the two high bits of the first byte. -/
def WireChunk.fmt (f : WireChunk) : Nat := f.b.val / 64

/-- The basic header: the first byte, one more byte when its low six bits are
0, two more when they are 1. -/
def WireChunk.basicHeader (f : WireChunk) : List Byte :=
  f.b :: (if f.b.val % 64 = 0 then [f.x] else if f.b.val % 64 = 1 then [f.x, f.y] else [])

/-- The chunk stream id as `recvChunk` computes it, in `byte` arithmetic. -/
def WireChunk.streamIDRead (f : WireChunk) : Int :=
  if f.b.val % 64 = 0 then (((f.x.val + 64) % 256 : Nat) : Int)
  else if f.b.val % 64 = 1 then (((f.x.val + 64) % 256 : Nat) : Int)
  else ((f.b.val % 64 : Nat) : Int)

/-- The working message is extended: the context is, or the 24-bit timestamp
field of a format 0, 1 or 2 header is `0xFFFFFF`. -/
def WireChunk.extended (f : WireChunk) (p : rtmpMessage) : Bool :=
  p.extended || (decide (f.fmt ≤ 2) && decide (be24Value f.t1 f.t2 f.t3 = 0xFFFFFF))

/-- The timestamp value of the chunk: the extended field when the working
message is extended, the 24-bit field otherwise. -/
def WireChunk.timestampValue (f : WireChunk) (p : rtmpMessage) : Nat :=
  if f.extended p then be32Value f.e1 f.e2 f.e3 f.e4 else be24Value f.t1 f.t2 f.t3

/-- The chunk header on the wire under context `p`: basic header, message
header of the format, extended timestamp when the working message is
extended. -/
def WireChunk.header (f : WireChunk) (p : rtmpMessage) : List Byte :=
  f.basicHeader
    ++ (if f.fmt ≤ 2 then [f.t1, f.t2, f.t3] else [])
    ++ (if f.fmt ≤ 1 then [f.l1, f.l2, f.l3, f.ty] else [])
    ++ (if f.fmt = 0 then [f.s1, f.s2, f.s3, f.s4] else [])
    ++ (if f.extended p then [f.e1, f.e2, f.e3, f.e4] else [])

/-- The working message of section 4.2 of the specification after the header
of `f` is decoded under context `p`, before the payload is read; the
timestamp of formats 1, 2 and 3 is the `int64` sum. -/
def WireChunk.message (f : WireChunk) (p : rtmpMessage) : rtmpMessage :=
  { streamID := if f.fmt = 0 then (le32Value f.s1 f.s2 f.s3 f.s4 : Int) else p.streamID
    messageType := if f.fmt ≤ 1 then f.ty else p.messageType
    length := if f.fmt ≤ 1 then (be24Value f.l1 f.l2 f.l3 : Int) else p.length
    extended := f.extended p
    timestamp :=
      if f.fmt = 0 then (f.timestampValue p : Int)
      else if f.fmt ≤ 2 then wrapInt64 (p.timestamp + (f.timestampValue p : Int))
      else wrapInt64 (p.timestamp + p.timestampDelta)
    timestampDelta :=
      if f.fmt = 0 then 0
      else if f.fmt ≤ 2 then (f.timestampValue p : Int)
      else p.timestampDelta
    data := p.data }

/-- The previous-message context: an absent one counts as the zero message. -/
def contextOf (prev : Option rtmpMessage) : rtmpMessage := prev.getD rtmpMessage.zero

/-- The header fields of a chunk as `sendChunk` puts them on the wire. -/
def wireOf (c : rtmpChunk) : WireChunk :=
  let bh := (sendBasicHeader [] c).getD []
  let ts : Nat := if timestampToSend c > 0xffffff then 0xffffff else toUint32 (timestampToSend c)
  { b := bh.getD 0 0, x := bh.getD 1 0, y := bh.getD 2 0
    t1 := Fin.ofNat (ts / 65536), t2 := Fin.ofNat (ts / 256), t3 := Fin.ofNat ts
    l1 := Fin.ofNat (toUint32 c.message.length / 65536)
    l2 := Fin.ofNat (toUint32 c.message.length / 256)
    l3 := Fin.ofNat (toUint32 c.message.length)
    ty := c.message.messageType
    s1 := Fin.ofNat (toUint32 c.message.streamID)
    s2 := Fin.ofNat (toUint32 c.message.streamID / 256)
    s3 := Fin.ofNat (toUint32 c.message.streamID / 65536)
    s4 := Fin.ofNat (toUint32 c.message.streamID / 16777216)
    e1 := Fin.ofNat (toUint32 (timestampToSend c) / 16777216)
    e2 := Fin.ofNat (toUint32 (timestampToSend c) / 65536)
    e3 := Fin.ofNat (toUint32 (timestampToSend c) / 256)
    e4 := Fin.ofNat (toUint32 (timestampToSend c)) }

/-! ## The loops of the tests -/

/-- The sending loop of `TestSendMessage` (lines 331-340 of the test file):
every chunk is sent to a buffer of its own; `none` when `sendChunk` returns
an error. -/
def sendAll : List rtmpChunk → Option (List (List Byte))
  | [] => some []
  | chunk :: chunks =>
    match sendChunk [] chunk with
    | (w, none) => (sendAll chunks).map (w :: ·)
    | (_, some _) => none

/-- The decoding loop of `TestRecvChunk` (lines 190-202 of the test file):
every input buffer is decoded with the message of the chunk before it as the
previous message, the first one under `prev`; `none` when `recvChunk` does
not return a chunk. -/
def recvSequence (N : Int) : Option rtmpMessage → List Reader → Option (List rtmpChunk)
  | _, [] => some []
  | prev, input :: inputs =>
    match recvChunk input (fun _ _ => prev) N with
    | .ok (c, _) => (recvSequence N (some c.message) inputs).map (c :: ·)
    | .error _ => none
    | .panic => none

/-- The round trip of section 8 of the specification: fragment the message,
send every chunk, decode the buffers in order without a previous message for
the first; the result is the message of the last decoded chunk. -/
def roundTrip (message : rtmpMessage) (chunkStreamID : Int) (chunkSize : Int) (fuel : Nat) :
    Option rtmpMessage :=
  match (chunkMessage message (fun (u : Unit) => (chunkStreamID, u)) () chunkSize fuel).1 with
  | .returned chunks =>
    match sendAll chunks with
    | some inputs =>
      match recvSequence chunkSize none inputs with
      | some decoded => decoded.getLast?.map (fun c => c.message)
      | none => none
    | none => none
  | .panic _ => none
  | .outOfFuel => none

/-- The message decoded so far after `k` chunks of `m` at chunk size `N`. -/
def messageAfter (m : rtmpMessage) (N k : Nat) : rtmpMessage :=
  { m with data := m.data.take (min (k * N) m.data.length) }

/-- The previous message when chunk `k` is decoded: none for the first. -/
def contextBefore (m : rtmpMessage) (N k : Nat) : Option rtmpMessage :=
  if k = 0 then none else some (messageAfter m N k)

/-- The messages and chunk sizes for which the round trip is proved: the
hypotheses of the round-trip law, with the timestamp `0xFFFFFF` left out and
a timestamp above it only for a message of one chunk. -/
structure RoundTrips (m : rtmpMessage) (N : Nat) : Prop where
  length_eq : m.length = (m.data.length : Int)
  length_pos : 1 ≤ m.data.length
  length_lt : m.data.length < 16777216
  timestamp_nonneg : 0 ≤ m.timestamp
  timestamp_lt : m.timestamp < 4294967296
  timestamp_ne : m.timestamp ≠ 0xFFFFFF
  extended_eq : m.extended = decide (m.timestamp > 0xFFFFFF)
  single_if_extended : m.timestamp > 0xFFFFFF → m.data.length ≤ N
  delta_zero : m.timestampDelta = 0
  streamID_nonneg : 0 ≤ m.streamID
  streamID_lt : m.streamID < 4294967296
  chunkSize_pos : 1 ≤ N

/-! ## Concrete inputs -/

/-- The 25-byte `createStream` message of the tests. -/
def testMessage : rtmpMessage :=
  { length := 25, messageType := 0x14, streamID := 1, timestamp := 2920, timestampDelta := 0,
    extended := false,
    data := [0x02, 0x00, 0x0C, 0x63, 0x72, 0x65, 0x61, 0x74, 0x65, 0x53, 0x74, 0x72, 0x65,
             0x61, 0x6D, 0x00, 0x40, 0x00, 0x00, 0x00, 0x00, 0x00, 0x00, 0x00, 0x05] }

/-- A format-3 chunk whose delta needs the escape and whose message is not
marked extended. -/
def unflaggedFmt3Chunk : rtmpChunk :=
  { fmt := 3, streamID := 3, message := { testMessage with timestampDelta := 0x1000000 } }

/-- A format-0 chunk marked extended although its timestamp 2920 fits in 24
bits. -/
def overflaggedFmt0Chunk : rtmpChunk :=
  { fmt := 0, streamID := 3, message := { testMessage with extended := true } }

/-- A message whose timestamp is exactly `0xFFFFFF`; it is not extended, as
`0xFFFFFF > 0xFFFFFF` is false. -/
def boundaryMessage : rtmpMessage :=
  { length := 5, messageType := 0x14, streamID := 1, timestamp := 0xFFFFFF, timestampDelta := 0,
    extended := false, data := [1, 2, 3, 4, 5] }

/-- The test message with a timestamp above `0xFFFFFF`, marked extended. -/
def extendedMessage : rtmpMessage :=
  { testMessage with timestamp := 0x1000000, extended := true }

/-- The four input buffers of the third case of `chunkRecvTests` (formats 0, 1,
2, 3 at chunk size 8). -/
def recvTestInputs : List Reader :=
  [[0x03, 0x00, 0x0B, 0x68, 0x00, 0x00, 0x19, 0x14, 0x01, 0x00, 0x00, 0x00,
    0x02, 0x00, 0x0C, 0x63, 0x72, 0x65, 0x61, 0x74],
   [0x43, 0x00, 0x00, 0x14, 0x00, 0x00, 0x19, 0x14,
    0x65, 0x53, 0x74, 0x72, 0x65, 0x61, 0x6D, 0x00],
   [0x83, 0x00, 0x00, 0x2a,
    0x40, 0x00, 0x00, 0x00, 0x00, 0x00, 0x00, 0x00],
   [0xC3,
    0x05]]

/-- The message after the first chunk of the second case of `chunkRecvTests`
(chunk size 16): sixteen of the 25 payload bytes. -/
def partialMessage : rtmpMessage :=
  { testMessage with data := testMessage.data.take 16 }

/-- The header fields of the second chunk of that case: format 1 on chunk
stream 3, delta 20, length 25, type `0x14`. -/
def secondWireChunk : WireChunk :=
  { b := 0x43, x := 0, y := 0, t1 := 0x00, t2 := 0x00, t3 := 0x14,
    l1 := 0x00, l2 := 0x00, l3 := 0x19, ty := 0x14,
    s1 := 0, s2 := 0, s3 := 0, s4 := 0, e1 := 0, e2 := 0, e3 := 0, e4 := 0 }

/-- The second input buffer of that case. -/
def secondInput : Reader :=
  [0x43, 0x00, 0x00, 0x14, 0x00, 0x00, 0x19, 0x14,
   0x40, 0x00, 0x00, 0x00, 0x00, 0x00, 0x00, 0x00, 0x05]

/-- The state of `recvChunk` on `secondInput` under `partialMessage` when it
reaches the payload. -/
def secondState : RecvState :=
  { r := [0x40, 0x00, 0x00, 0x00, 0x00, 0x00, 0x00, 0x00, 0x05]
    header := [0x14, 0, 0, 0x19, 0, 0, 0, 0, 0, 0, 0, 0, 0, 0, 0, 0]
    chunk := { fmt := 1, streamID := 3,
               message := { partialMessage with timestamp := 2940, timestampDelta := 20 } }
    timestamp := 20 }

/-- The chunk `recvChunk` returns for `secondInput` under `partialMessage`:
the whole test message with timestamp 2940 and delta 20. -/
def secondChunk : rtmpChunk :=
  { fmt := 1, streamID := 3,
    message := { testMessage with timestamp := 2940, timestampDelta := 20 } }

/-- The message after the third chunk of the third case of `chunkRecvTests`
(chunk size 8): 24 of the 25 payload bytes, timestamp 2982, delta 42. -/
def thirdMessage : rtmpMessage :=
  { testMessage with
    timestamp := 2982, timestampDelta := 42, data := testMessage.data.take 24 }

/-- The chunk `recvChunk` returns for `C3 05` under `thirdMessage`: the whole
test message with timestamp 3024 and delta 42. -/
def lastChunk : rtmpChunk :=
  { fmt := 3, streamID := 3,
    message := { testMessage with timestamp := 3024, timestampDelta := 42 } }

/-- The first case of `chunkRecvTests`: the whole test message in one chunk. -/
def wholeInput : Reader :=
  0x03 :: 0x00 :: 0x0B :: 0x68 :: 0x00 :: 0x00 :: 0x19 :: 0x14 :: 0x01 :: 0x00 :: 0x00 :: 0x00
    :: testMessage.data

/-- A format-0 chunk header for timestamp 2920, length 5, type `0x14`, message
stream id 1 on chunk stream 3, followed by the payload `01 02 03 04 05`. -/
def shortInput : Reader :=
  [0x03, 0x00, 0x0B, 0x68, 0x00, 0x00, 0x05, 0x14, 0x01, 0x00, 0x00, 0x00, 1, 2, 3, 4, 5]

/-- A five-byte message with timestamp 2920, not extended: the message whose
format-0 chunk on chunk stream 3 is `shortInput`. -/
def shortMessage : rtmpMessage :=
  { length := 5, messageType := 0x14, streamID := 1, timestamp := 2920, timestampDelta := 0,
    extended := false, data := [1, 2, 3, 4, 5] }

/-- The context a message with an extended timestamp leaves on its chunk
stream, its payload cleared. -/
def extendedContext : rtmpMessage := { extendedMessage with data := [] }

/-- The header fields of the last chunk of the third case of `chunkRecvTests`:
format 3 on chunk stream 3, one basic-header byte `C3`. -/
def lastWireChunk : WireChunk :=
  { b := 0xC3, x := 0, y := 0, t1 := 0, t2 := 0, t3 := 0, l1 := 0, l2 := 0, l3 := 0, ty := 0,
    s1 := 0, s2 := 0, s3 := 0, s4 := 0, e1 := 0, e2 := 0, e3 := 0, e4 := 0 }

/-- The header fields of `wholeInput`: format 0 on chunk stream 3, timestamp
2920, length 25, type `0x14`, message stream id 1. -/
def firstWireChunk : WireChunk :=
  { b := 0x03, x := 0, y := 0, t1 := 0x00, t2 := 0x0B, t3 := 0x68,
    l1 := 0x00, l2 := 0x00, l3 := 0x19, ty := 0x14,
    s1 := 0x01, s2 := 0x00, s3 := 0x00, s4 := 0x00, e1 := 0, e2 := 0, e3 := 0, e4 := 0 }

/-! ## The handshake: `Handshake` -/

/-- The constant `protocolVersion`. -/
def protocolVersion : Byte := 3

/-- The connection `c.conn` seen from the client: the segments the peer
delivers, in order, each as the bytes one `Read` finds available, and the
bytes written so far. -/
structure Conn where
  incoming : List (List Byte)
  written : List Byte
  deriving DecidableEq, Repr

/-- The call `c.conn.Write(bs)`; the code discards its results. -/
def Conn.Write (c : Conn) (bs : List Byte) : Conn := { c with written := c.written ++ bs }

/-- The call `c.conn.Read(buf)`: `buf` with the bytes read stored at its front
and the connection afterwards, or `none` for an error when the peer has
nothing more to deliver.  A read takes at most `len(buf)` bytes of the first
segment and leaves the rest of it for the next read. -/
def Conn.Read (c : Conn) (buf : List Byte) : Option (List Byte) × Conn :=
  match c.incoming with
  | [] => (none, c)
  | seg :: rest =>
    (some (writeAt buf 0 (seg.take buf.length)),
     { c with incoming := if seg.length ≤ buf.length then rest
                          else seg.drop buf.length :: rest })

/-- The function `randBytes`: `n` bytes of the generator of `math/rand`, given
as the sequence of bytes it produces. -/
def randBytes (n : Nat) (gen : Nat → Byte) : List Byte := (List.range n).map gen

/-- The errors `Handshake` returns. -/
inductive HandshakeError where
  /-- The error of the read of S0. -/
  | readS0
  /-- The error "S0 version (%d) != C0 version (%d)". -/
  | versionMismatch
  /-- The error of the read of S1. -/
  | readS1
  /-- The error of the read of S2. -/
  | readS2
  /-- The error "S2 random mismatch from C1". -/
  | randomMismatch
  deriving DecidableEq, Repr

/-- The method `Handshake` (lines 84-138): the connection afterwards and the
error returned, `none` for nil.  The generator `gen` and the two values of
`time.Now()`, in nanoseconds, are arguments. -/
def Handshake (c : Conn) (gen : Nat → Byte) (timeC1 timeS1 : Int) :
    Conn × Option HandshakeError :=
  let c := c.Write [protocolVersion]
  match c.Read (List.replicate 1 0) with
  | (none, c) => (c, some .readS0)
  | (some version, c) =>
    if version.getD 0 0 ≠ protocolVersion then (c, some .versionMismatch)
    else
      let c := c.Write (bigEndianPutUint32 0)
      let c := c.Write (bigEndianPutUint32 0)
      let rand1 := randBytes 1528 gen
      let c := c.Write rand1
      match c.Read (List.replicate 1536 0) with
      | (none, c) => (c, some .readS1)
      | (some S1, c) =>
        let c := c.Write (S1.take 4)
        let timestampC2 : Int := Int.tdiv (timeS1 - timeC1) 1000
        let c := c.Write (bigEndianPutUint32 (toUint32 timestampC2))
        let c := c.Write (S1.drop 8)
        match c.Read (List.replicate 1536 0) with
        | (none, c) => (c, some .readS2)
        | (some S2, c) =>
          if rand1 ≠ S2.drop 8 then (c, some .randomMismatch)
          else (c, none)

/-- A generator for the examples: byte `i` is `i mod 256`. -/
def countingGen : Nat → Byte := fun i => Fin.ofNat i

/-- An S1 block for the examples: 1536 bytes `07`. -/
def peerS1 : List Byte := List.replicate 1536 7

/-- The S2 block of a peer that echoes C1: eight zero bytes, then the 1528
bytes of the generator. -/
def peerS2 : List Byte := [0, 0, 0, 0, 0, 0, 0, 0] ++ randBytes 1528 countingGen

/-- The S2 block of a peer that does not echo C1: 1536 zero bytes. -/
def peerS2Zero : List Byte := List.replicate 1536 0

/-! ## Arithmetic of bytes -/

/-- An `int64` result that fits is exact. -/
theorem wrapInt64_of_range (x : Int) (h0 : -9223372036854775808 ≤ x)
    (h1 : x < 9223372036854775808) : wrapInt64 x = x := by
  unfold wrapInt64
  omega

set_option maxRecDepth 100000 in
theorem shr6_val : ∀ b : Byte, (b >>> 6).val = b.val / 64 := by decide

set_option maxRecDepth 100000 in
theorem and3f_val : ∀ b : Byte, (b &&& 0x3f).val = b.val % 64 := by decide

set_option maxRecDepth 100000 in
theorem shl8_val : ∀ b : Byte, (b <<< 8).val = 0 := by decide

set_option maxRecDepth 100000 in
theorem add64_val : ∀ b : Byte, (b + 64).val = (b.val + 64) % 256 := by decide

set_option maxRecDepth 100000 in
theorem shl6_val : ∀ b : Byte, (b <<< 6).val = b.val * 64 % 256 := by decide

theorem toByte_val (x : Int) : (toByte x).val = (x % 256).toNat := by
  simp [toByte, Fin.ofNat]
  omega

theorem ofNat_val (n : Nat) : (Fin.ofNat n : Byte).val = n % 256 := by
  simp [Fin.ofNat]

theorem lor_val (a b : Byte) : (a ||| b).val = a.val ||| b.val := by
  have h : (a ||| b).val = (a.val ||| b.val) % 256 := rfl
  rw [h]
  apply Nat.mod_eq_of_lt
  exact @Nat.or_lt_two_pow a.val b.val 8 a.isLt b.isLt

theorem fmt_cases (f : Byte) (h : f.val ≤ 3) : f = 0 ∨ f = 1 ∨ f = 2 ∨ f = 3 := by
  rcases f with ⟨n, hn⟩
  simp only [Fin.ext_iff] at *
  simp at h ⊢
  omega

/-! ## Encoding -/

/-- Every step after the basic header only appends to the writer. -/
theorem sendChunk_prefix (w w1 : Writer) (chunk : rtmpChunk)
    (hid : ¬ (chunk.streamID = 0 ∨ chunk.streamID = 1))
    (hbh : sendBasicHeader w chunk = some w1) :
    ∃ tail, (sendChunk w chunk).1 = w1 ++ tail := by
  unfold sendChunk
  rw [if_neg hid, hbh]
  simp only [sendTimestampField, sendLengthType, sendMessageStreamID]
  split_ifs <;> simp

/-- The basic header the code writes is the one the specification words. -/
theorem sendBasicHeader_spec (w : Writer) (chunk : rtmpChunk) (hfmt : chunk.fmt.val ≤ 3)
    (hlo : 2 ≤ chunk.streamID) (hhi : chunk.streamID ≤ 65599) :
    ∃ bh, sendBasicHeader w chunk = some (w ++ bh) ∧
      bh.map Fin.val = basicHeaderSpec chunk.fmt.val chunk.streamID.toNat := by
  have hshl : (chunk.fmt <<< 6).val = chunk.fmt.val <<< 6 := by
    rw [shl6_val, Nat.shiftLeft_eq]; omega
  unfold sendBasicHeader basicHeaderSpec
  by_cases h1 : chunk.streamID < 64
  · refine ⟨[(chunk.fmt <<< 6) ||| toByte chunk.streamID], by simp [h1], ?_⟩
    have : chunk.streamID.toNat ≤ 63 := by omega
    simp only [if_pos this, List.map, lor_val, hshl, toByte_val]
    congr 2
    omega
  · by_cases h2 : chunk.streamID < 320
    · refine ⟨[chunk.fmt <<< 6, toByte (chunk.streamID - 64)], by simp [h1, h2], ?_⟩
      have h3 : ¬ chunk.streamID.toNat ≤ 63 := by omega
      have h4 : chunk.streamID.toNat ≤ 319 := by omega
      simp only [if_neg h3, if_pos h4, List.map, hshl, toByte_val]
      congr 2
      omega
    · refine ⟨[(chunk.fmt <<< 6) ||| 1, toByte (chunk.streamID - 64),
        toByte ((chunk.streamID - 64) >>> (8 : Nat))], by simp [h1, h2]; omega, ?_⟩
      have h3 : ¬ chunk.streamID.toNat ≤ 63 := by omega
      have h4 : ¬ chunk.streamID.toNat ≤ 319 := by omega
      have h5 : (chunk.streamID.toNat - 64) &&& 0xFF = (chunk.streamID.toNat - 64) % 256 :=
        Nat.and_pow_two_sub_one_eq_mod _ 8
      have h6 : ((1 : Byte)).val = 1 := rfl
      simp only [if_neg h3, if_neg h4, List.map, hshl, toByte_val, lor_val, h5, h6,
        Int.shiftRight_eq_div_pow, Nat.shiftRight_eq_div_pow]
      congr 2
      · omega
      · congr 1
        omega

/-- C4: for every format in {0,1,2,3} and every chunk stream id in [2, 65599]
the first bytes `sendChunk` writes are the basic header of the specification:
one byte `(fmt << 6) | id` for ids 2 to 63, two bytes `[fmt << 6, id - 64]`
for ids 64 to 319, three bytes `[(fmt << 6) | 1, (id - 64) & 0xFF,
(id - 64) >> 8]` for ids 320 to 65599. -/
theorem sendChunk_basic_header (w : Writer) (chunk : rtmpChunk) (hfmt : chunk.fmt.val ≤ 3)
    (hlo : 2 ≤ chunk.streamID) (hhi : chunk.streamID ≤ 65599) :
    ∃ bh tail, (sendChunk w chunk).1 = w ++ bh ++ tail ∧
      bh.map Fin.val = basicHeaderSpec chunk.fmt.val chunk.streamID.toNat := by
  obtain ⟨bh, hbh, hval⟩ := sendBasicHeader_spec w chunk hfmt hlo hhi
  have hid : ¬ (chunk.streamID = 0 ∨ chunk.streamID = 1) := by omega
  obtain ⟨tail, htail⟩ := sendChunk_prefix w (w ++ bh) chunk hid hbh
  exact ⟨bh, tail, htail, hval⟩

/-- The basic header of a format-3 chunk on chunk stream 300 is `C0 EC`. -/
theorem sendChunk_basic_header_witness :
    ∃ bh tail, (sendChunk [] ⟨3, 300, rtmpMessage.zero⟩).1 = [] ++ bh ++ tail ∧
      bh.map Fin.val = [192, 236] :=
  sendChunk_basic_header [] ⟨3, 300, rtmpMessage.zero⟩ (by decide) (by decide) (by decide)

theorem putBE_drop_val (n : Nat) :
    ((bigEndianPutUint32 n).drop 1).map Fin.val = be24Spec n := by
  simp [bigEndianPutUint32, be24Spec, ofNat_val]

theorem putBE_val (n : Nat) :
    (bigEndianPutUint32 n).map Fin.val = be32Spec n := by
  simp [bigEndianPutUint32, be32Spec, ofNat_val]

theorem putLE_val (n : Nat) :
    (littleEndianPutUint32 n).map Fin.val = le32Spec n := by
  simp [littleEndianPutUint32, le32Spec, ofNat_val]

theorem toUint32_of_range (x : Int) (h0 : 0 ≤ x) (h1 : x < 4294967296) :
    toUint32 x = x.toNat := by
  unfold toUint32
  omega

theorem sendChunk_timestamp (chunk : rtmpChunk) :
    (if chunk.fmt ≠ 0 then chunk.message.timestampDelta else chunk.message.timestamp)
      = timestampToSend chunk := by
  unfold timestampToSend
  split_ifs <;> simp_all

/-- C3: for every chunk with format in {0,1,2,3}, chunk stream id in
[2, 65599], length below 2^24, message stream id below 2^32 and a timestamp
value `v` to send below 2^32 with `extended = (v > 0xFFFFFF)`, `sendChunk`
returns no error and writes after the basic header exactly: for formats 0, 1, 2
the three big-endian bytes of `min v 0xFFFFFF`; for formats 0, 1 the three
big-endian bytes of the length and the type byte; for format 0 the four
little-endian bytes of the message stream id; when extended the four
big-endian bytes of `v`; then the data. -/
theorem sendChunk_wire_layout (w : Writer) (chunk : rtmpChunk)
    (hfmt : chunk.fmt.val ≤ 3)
    (hlo : 2 ≤ chunk.streamID) (hhi : chunk.streamID ≤ 65599)
    (hlen0 : 0 ≤ chunk.message.length) (hlen : chunk.message.length < 16777216)
    (hsid0 : 0 ≤ chunk.message.streamID) (hsid : chunk.message.streamID < 4294967296)
    (hv0 : 0 ≤ timestampToSend chunk) (hv1 : timestampToSend chunk < 4294967296)
    (hext : chunk.message.extended = decide (timestampToSend chunk > 0xFFFFFF)) :
    ∃ bh fields, sendBasicHeader w chunk = some (w ++ bh) ∧
      sendChunk w chunk = (w ++ bh ++ fields, none) ∧
      fields.map Fin.val =
        wireLayoutSpec chunk.fmt.val (timestampToSend chunk).toNat chunk.message.length.toNat
          chunk.message.messageType.val chunk.message.streamID.toNat
          chunk.message.extended (chunk.message.data.map Fin.val) := by
  obtain ⟨bh, hbh, -⟩ := sendBasicHeader_spec w chunk hfmt hlo hhi
  have hid : ¬ (chunk.streamID = 0 ∨ chunk.streamID = 1) := by omega
  have hlenU := toUint32_of_range _ hlen0 (by omega : chunk.message.length < 4294967296)
  have hsidU := toUint32_of_range _ hsid0 hsid
  have hvU := toUint32_of_range _ hv0 hv1
  refine ⟨bh, ?_⟩
  unfold sendChunk
  rw [if_neg hid, hbh]
  simp only [sendChunk_timestamp, sendTimestampField, sendLengthType, sendMessageStreamID,
    hlenU, hsidU, hvU]
  have htail : ∀ n, (be32Spec n).tail = be24Spec n := fun _ => rfl
  have v0 : ((0 : Byte) : Nat) = 0 := rfl
  have v1 : ((1 : Byte) : Nat) = 1 := rfl
  have v2 : ((2 : Byte) : Nat) = 2 := rfl
  have v3 : ((3 : Byte) : Nat) = 3 := rfl
  by_cases hbig : timestampToSend chunk > 0xFFFFFF
  · have hmin : min (timestampToSend chunk).toNat 0xFFFFFF = 0xFFFFFF := by omega
    have he : chunk.message.extended = true := by simp [hext, hbig]
    have hnle : ¬ timestampToSend chunk ≤ 0xFFFFFF := by omega
    rcases fmt_cases _ hfmt with h | h | h | h <;>
      simp [h, he, hbig, hnle, wireLayoutSpec, hmin, putBE_drop_val, putBE_val, putLE_val,
        htail, v0, v1, v2, v3]
  · have hmin : min (timestampToSend chunk).toNat 0xFFFFFF = (timestampToSend chunk).toNat := by
      omega
    have he : chunk.message.extended = false := by simp [hext, hbig]
    rcases fmt_cases _ hfmt with h | h | h | h <;>
      simp [h, he, hbig, wireLayoutSpec, hmin, putBE_drop_val, putBE_val, putLE_val,
        htail, v0, v1, v2, v3]

/-- The first chunk of the test message at chunk size 8: after the basic
header `03` come `00 0B 68`, `00 00 19 14`, `01 00 00 00` and eight payload
bytes. -/
theorem sendChunk_wire_layout_witness :
    ∃ bh fields,
      sendBasicHeader [] ⟨0, 3, { testMessage with data := testMessage.data.take 8 }⟩
        = some ([] ++ bh) ∧
      sendChunk [] ⟨0, 3, { testMessage with data := testMessage.data.take 8 }⟩
        = ([] ++ bh ++ fields, none) ∧
      fields.map Fin.val =
        [0x00, 0x0B, 0x68, 0x00, 0x00, 0x19, 0x14, 0x01, 0x00, 0x00, 0x00,
         0x02, 0x00, 0x0C, 0x63, 0x72, 0x65, 0x61, 0x74] :=
  sendChunk_wire_layout [] ⟨0, 3, { testMessage with data := testMessage.data.take 8 }⟩
    (by decide) (by decide) (by decide) (by decide) (by decide) (by decide) (by decide)
    (by decide) (by decide) (by decide)

/-- C9 as stated fails: a format-3 chunk that is not marked extended and whose
delta `0x1000000` exceeds `0xFFFFFF` is sent without error. -/
theorem sendChunk_fmt3_unflagged_no_error :
    unflaggedFmt3Chunk.fmt = 3 ∧ unflaggedFmt3Chunk.message.extended = false ∧
      timestampToSend unflaggedFmt3Chunk > 0xFFFFFF ∧
      (sendChunk [] unflaggedFmt3Chunk).2 = none := by
  decide

/-- C9, amended: `sendChunk` returns an error if the chunk stream id is 0 or 1,
if it is at least 65600, if the message is marked extended while the
timestamp value to send is at most `0xFFFFFF` (every format), or if the
message is not marked extended while that value exceeds `0xFFFFFF` and the
format is 0, 1 or 2. -/
theorem sendChunk_error_conditions (w : Writer) (chunk : rtmpChunk)
    (h : chunk.streamID = 0 ∨ chunk.streamID = 1 ∨ 65600 ≤ chunk.streamID
      ∨ (chunk.message.extended = true ∧ timestampToSend chunk ≤ 0xFFFFFF)
      ∨ (chunk.message.extended = false ∧ timestampToSend chunk > 0xFFFFFF
          ∧ (chunk.fmt = 0 ∨ chunk.fmt = 1 ∨ chunk.fmt = 2))) :
    (sendChunk w chunk).2 ≠ none := by
  unfold sendChunk
  simp only [sendChunk_timestamp]
  by_cases hid : chunk.streamID = 0 ∨ chunk.streamID = 1
  · simp [hid]
  · rw [if_neg hid]
    have h01 : chunk.streamID ≠ 0 ∧ chunk.streamID ≠ 1 := by omega
    rcases h with h | h | h | h | h
    · exact absurd h h01.1
    · exact absurd h h01.2
    · have : sendBasicHeader w chunk = none := by
        unfold sendBasicHeader
        have a : ¬ chunk.streamID < 64 := by omega
        have b : ¬ chunk.streamID < 320 := by omega
        have c : ¬ chunk.streamID < 65600 := by omega
        simp [a, b, c]
      simp [this]
    · cases hb : sendBasicHeader w chunk with
      | none => simp
      | some w1 =>
        simp only []
        cases ht : sendTimestampField w1 (List.replicate 4 0) chunk (timestampToSend chunk) with
        | none => simp
        | some p =>
          obtain ⟨w2, buf⟩ := p
          simp [h.1, h.2]
    · cases hb : sendBasicHeader w chunk with
      | none => simp
      | some w1 =>
        have hgt : timestampToSend chunk > 0xffffff := h.2.1
        have : ∀ buf, sendTimestampField w1 buf chunk (timestampToSend chunk) = none := by
          intro buf
          unfold sendTimestampField
          rw [if_pos h.2.2, if_pos hgt]
          simp [h.1]
        simp [this]

/-- A format-1 chunk with delta `0x1000000` that is not marked extended is
refused. -/
theorem sendChunk_error_conditions_witness :
    (sendChunk [] ⟨1, 3, { testMessage with timestampDelta := 0x1000000 }⟩).2 ≠ none :=
  sendChunk_error_conditions [] ⟨1, 3, { testMessage with timestampDelta := 0x1000000 }⟩
    (by decide)

/-- C10 fails on the code: for a format-0 chunk marked extended whose
timestamp 2920 fits in 24 bits, `sendChunk` returns the error "extended
timestamp but timestamp fits in 3 bytes" after it has written the basic
header and the eleven bytes of the message header. -/
theorem sendChunk_error_after_write :
    sendChunk [] overflaggedFmt0Chunk
      = ([0x03, 0x00, 0x0B, 0x68, 0x00, 0x00, 0x19, 0x14, 0x01, 0x00, 0x00, 0x00],
         some .timestampFits) := by
  decide

/-! ## Fragmentation -/

theorem lt_fragmentCount (n N k : Nat) (hN : 1 ≤ N) : k < fragmentCount n N ↔ k * N < n := by
  unfold fragmentCount
  rw [Nat.lt_iff_add_one_le, Nat.le_div_iff_mul_le (by omega)]
  have : (k + 1) * N = k * N + N := by ring
  omega

theorem chunkLoop_spec (m : rtmpMessage) (c : Int) (N : Nat) (hN : 1 ≤ N) :
    ∀ (fuel k : Nat) (acc : List rtmpChunk),
      fragmentCount m.data.length N - k ≤ fuel →
      chunkLoop m c (N : Int) fuel (min m.data.length (k * N)) acc
        = .returned (acc ++ (List.range' k (fragmentCount m.data.length N - k)).map
            (fragmentSpec m c N)) := by
  intro fuel
  induction fuel with
  | zero =>
    intro k acc h
    have hk : ¬ k < fragmentCount m.data.length N := by omega
    rw [lt_fragmentCount _ _ _ hN] at hk
    have h0 : fragmentCount m.data.length N - k = 0 := by omega
    unfold chunkLoop
    have : ¬ (min m.data.length (k * N) < m.data.length) := by omega
    simp [this, h0]
  | succ f ih =>
    intro k acc h
    by_cases hk : k < fragmentCount m.data.length N
    · have hk' := (lt_fragmentCount _ _ _ hN).1 hk
      have hoff : min m.data.length (k * N) = k * N := by omega
      have hlt : k * N < m.data.length := hk'
      rw [hoff]
      unfold chunkLoop
      rw [if_pos hlt]
      simp only []
      have hL : (if (m.data.length : Int) - ((k * N : Nat) : Int) > (N : Int) then (N : Int)
          else (m.data.length : Int) - ((k * N : Nat) : Int))
          = ((min (m.data.length - k * N) N : Nat) : Int) := by
        split_ifs <;> omega
      rw [hL]
      have hnn : ¬ ((min (m.data.length - k * N) N : Nat) : Int) < 0 := by omega
      rw [if_neg hnn, Int.toNat_ofNat]
      have hnext : k * N + min (m.data.length - k * N) N = min m.data.length ((k + 1) * N) := by
        have : (k + 1) * N = k * N + N := by ring
        omega
      rw [hnext, ih (k + 1) _ (by omega)]
      have hcnt : fragmentCount m.data.length N - k
          = (fragmentCount m.data.length N - (k + 1)) + 1 := by
        omega
      rw [hcnt, List.range'_succ]
      simp only [List.map_cons, List.append_assoc, List.singleton_append]
      congr 3
      have hfmt : (if k * N > 0 then (3 : Byte) else 0) = (if k = 0 then 0 else 3) := by
        by_cases h0 : k = 0
        · simp [h0]
        · have : k * N > 0 := Nat.mul_pos (by omega) (by omega)
          simp [h0, this]
      have hdata : List.take (min (m.data.length - k * N) N) (List.drop (k * N) m.data)
          = sliceSpec m.data (k * N) (min ((k + 1) * N) m.data.length) := by
        unfold sliceSpec
        rw [List.drop_take]
        congr 1
        have : (k + 1) * N = k * N + N := by ring
        omega
      simp only [fragmentSpec, hfmt, hdata, rtmpMessage.copyFrom]
    · have hk' : ¬ k * N < m.data.length := fun h' => hk ((lt_fragmentCount _ _ _ hN).2 h')
      have h0 : fragmentCount m.data.length N - k = 0 := by omega
      unfold chunkLoop
      have : ¬ (min m.data.length (k * N) < m.data.length) := by omega
      simp [this, h0]


theorem fragmentCount_le (n N : Nat) (hN : 1 ≤ N) : fragmentCount n N ≤ n := by
  by_contra hc
  have h1 : n < fragmentCount n N := by omega
  have h2 := (lt_fragmentCount n N n hN).1 h1
  have h3 : n * 1 ≤ n * N := Nat.mul_le_mul_left n hN
  omega

theorem fragmentCount_mul_ge (n N : Nat) (hN : 1 ≤ N) : n ≤ fragmentCount n N * N := by
  by_contra hc
  have h1 : fragmentCount n N * N < n := by omega
  have h2 := (lt_fragmentCount n N _ hN).2 h1
  omega

theorem take_append_slice (l : List Byte) (a b : Nat) (hab : a ≤ b) :
    l.take a ++ sliceSpec l a b = l.take b := by
  unfold sliceSpec
  have : l.take a = (l.take b).take a := by
    rw [List.take_take, Nat.min_eq_left hab]
  rw [this, List.take_append_drop]

theorem join_fragments (m : rtmpMessage) (c : Int) (N : Nat) (k : Nat) :
    ((List.range k).map (fun i => (fragmentSpec m c N i).message.data)).flatten
      = m.data.take (min (k * N) m.data.length) := by
  induction k with
  | zero => simp
  | succ k ih =>
    rw [List.range_succ, List.map_append, List.flatten_append, ih]
    simp only [List.map_cons, List.map_nil, List.flatten_cons, List.flatten_nil, List.append_nil,
      fragmentSpec]
    have hmul : (k + 1) * N = k * N + N := by ring
    by_cases hle : k * N ≤ m.data.length
    · rw [Nat.min_eq_left hle]
      apply take_append_slice
      omega
    · have h1 : min (k * N) m.data.length = m.data.length := by omega
      have h2 : min ((k + 1) * N) m.data.length = m.data.length := by omega
      have h3 : sliceSpec m.data (k * N) m.data.length = [] := by
        unfold sliceSpec
        apply List.drop_eq_nil_of_le
        simp only [List.length_take]
        omega
      rw [h1, h2, h3, List.append_nil]

/-- C5: for every message, every chunk size `N ≥ 1` and every id callback,
`chunkMessage` returns (any fuel of at least `len(data)` iterations is
enough), leaves the callback's state as after one call, and hands to the
chunk callback exactly `ceil(n / N)` chunks in order, chunk `i` being
`fragmentSpec`: format 0 for `i = 0` and 3 otherwise, the id the callback
returned, the header fields of the message and the bytes
`data[i*N .. min((i+1)*N, n))`.  The payloads concatenated give the data, and
every chunk but the last carries exactly `N` bytes. -/
theorem chunkMessage_fragments {σ : Type} (m : rtmpMessage) (idf : σ → Int × σ) (s : σ)
    (N : Int) (hN : 1 ≤ N) (fuel : Nat) (hfuel : m.data.length ≤ fuel) :
    chunkMessage m idf s N fuel
        = (.returned ((List.range (fragmentCount m.data.length N.toNat)).map
            (fragmentSpec m (idf s).1 N.toNat)), (idf s).2)
      ∧ ((List.range (fragmentCount m.data.length N.toNat)).map
            (fun i => (fragmentSpec m (idf s).1 N.toNat i).message.data)).flatten = m.data
      ∧ ∀ i, i + 1 < fragmentCount m.data.length N.toNat →
          (fragmentSpec m (idf s).1 N.toNat i).message.data.length = N.toNat := by
  have hN' : 1 ≤ N.toNat := by omega
  have hcast : ((N.toNat : Nat) : Int) = N := by omega
  refine ⟨?_, ?_, ?_⟩
  · unfold chunkMessage
    have h := chunkLoop_spec m (idf s).1 N.toNat hN' fuel 0 []
      (by have := fragmentCount_le m.data.length N.toNat hN'; omega)
    rw [hcast] at h
    simp only [Nat.zero_mul, Nat.min_zero, Nat.sub_zero, List.nil_append] at h
    rw [List.range_eq_range']
    simp only [h]
  · rw [join_fragments]
    have := fragmentCount_mul_ge m.data.length N.toNat hN'
    rw [Nat.min_eq_right this, List.take_length]
  · intro i hi
    have h1 := (lt_fragmentCount m.data.length N.toNat (i + 1) hN').1 hi
    have : (i + 1) * N.toNat = i * N.toNat + N.toNat := by ring
    simp only [fragmentSpec, sliceSpec, List.length_drop, List.length_take]
    omega

/-- The test message at chunk size 8 and with 25 iterations of fuel. -/
theorem chunkMessage_fragments_witness :
    chunkMessage testMessage (fun (n : Nat) => ((3 : Int), n + 1)) 0 8 25
        = (.returned ((List.range 4).map (fragmentSpec testMessage 3 8)), 1)
      ∧ ((List.range 4).map
            (fun i => (fragmentSpec testMessage 3 8 i).message.data)).flatten
          = testMessage.data
      ∧ ∀ i, i + 1 < 4 → (fragmentSpec testMessage 3 8 i).message.data.length = 8 :=
  chunkMessage_fragments testMessage (fun (n : Nat) => ((3 : Int), n + 1)) 0 8 (by decide) 25
    (by decide)

/-! ## Decoding -/

theorem readInto_one (a : Byte) (r : Reader) (h0 : Byte) (tl : List Byte) :
    readInto (a :: r) (h0 :: tl) 0 1 = some (r, a :: tl) := by
  simp [readInto, Reader.Read, writeAt]

theorem readInto_three (a b c : Byte) (r : Reader) (h0 h1 h2 h3 : Byte) (tl : List Byte) :
    readInto (a :: b :: c :: r) (h0 :: h1 :: h2 :: h3 :: tl) 1 4
      = some (r, h0 :: a :: b :: c :: tl) := by
  simp [readInto, Reader.Read, writeAt]

theorem readInto_four (a b c d : Byte) (r : Reader) (h0 h1 h2 h3 : Byte) (tl : List Byte) :
    readInto (a :: b :: c :: d :: r) (h0 :: h1 :: h2 :: h3 :: tl) 0 4
      = some (r, a :: b :: c :: d :: tl) := by
  simp [readInto, Reader.Read, writeAt]

theorem readInto_payload (r : Reader) (k : Nat) (hk : k ≤ r.length) :
    readInto r (List.replicate k 0) 0 k = some (r.drop k, r.take k) := by
  cases r with
  | nil =>
    have : k = 0 := by simpa using hk
    subst this
    simp [readInto, Reader.Read, writeAt]
  | cons a r =>
    simp only [readInto, Reader.Read, writeAt, Nat.sub_zero, List.take_zero, List.nil_append,
      Nat.zero_add]
    have hlen : (List.take k (a :: r)).length = k := by
      rw [List.length_take]; exact Nat.min_eq_left hk
    rw [hlen]
    simp

theorem recvPayload_enough (s : RecvState) (chunkSize : Int) (hN : 0 ≤ chunkSize)
    (hlen : (s.chunk.message.data.length : Int) ≤ s.chunk.message.length)
    (hin : min (s.chunk.message.length - s.chunk.message.data.length) chunkSize
      ≤ (s.r.length : Int)) :
    recvPayload s chunkSize
      = .ok ({ s.chunk with
                message := { s.chunk.message with
                  data := s.chunk.message.data ++ s.r.take
                    (min (s.chunk.message.length - s.chunk.message.data.length)
                      chunkSize).toNat } },
             s.r.drop
               (min (s.chunk.message.length - s.chunk.message.data.length) chunkSize).toNat) := by
  unfold recvPayload
  have hL : (if s.chunk.message.length - (s.chunk.message.data.length : Int) > chunkSize
      then chunkSize else s.chunk.message.length - (s.chunk.message.data.length : Int))
      = min (s.chunk.message.length - s.chunk.message.data.length) chunkSize := by
    split_ifs <;> omega
  simp only [hL]
  have hnn :
      ¬ min (s.chunk.message.length - (s.chunk.message.data.length : Int)) chunkSize < 0 := by
    omega
  rw [if_neg hnn, readInto_payload _ _ (by omega)]

theorem recvTimestampField_wire (s : RecvState) (t1 t2 t3 : Byte) (rest : Reader)
    (h0 h1 h2 h3 : Byte) (tl : List Byte)
    (hr : s.r = t1 :: t2 :: t3 :: rest) (hh : s.header = h0 :: h1 :: h2 :: h3 :: tl)
    (hf : s.chunk.fmt = 0 ∨ s.chunk.fmt = 1 ∨ s.chunk.fmt = 2) :
    recvTimestampField s
      = .ok { r := rest, header := 0 :: t1 :: t2 :: t3 :: tl,
              chunk := { s.chunk with
                message := { s.chunk.message with
                  extended := s.chunk.message.extended
                    || decide (be24Value t1 t2 t3 = 0xFFFFFF) } },
              timestamp := (be24Value t1 t2 t3 : Int) } := by
  unfold recvTimestampField
  rw [if_pos hf, hr, hh]
  simp only [setAt, List.set_cons_zero, readInto_three]
  have hv : bigEndianUint32 (0 :: t1 :: t2 :: t3 :: tl) = be24Value t1 t2 t3 := by
    simp [bigEndianUint32, be24Value]
    omega
  rw [hv]
  by_cases h : be24Value t1 t2 t3 = 0xFFFFFF
  · simp [h]
  · have : ¬ ((be24Value t1 t2 t3 : Nat) : Int) = 0xffffff := by omega
    simp [h, this]

theorem recvTimestampField_skip (s : RecvState) (hf : s.chunk.fmt = 3) :
    recvTimestampField s = .ok s := by
  unfold recvTimestampField
  have : ¬ (s.chunk.fmt = 0 ∨ s.chunk.fmt = 1 ∨ s.chunk.fmt = 2) := by
    rw [hf]; decide
  rw [if_neg this]

theorem recvLengthType_wire (s : RecvState) (l1 l2 l3 ty : Byte) (rest : Reader)
    (h0 h1 h2 h3 : Byte) (tl : List Byte)
    (hr : s.r = l1 :: l2 :: l3 :: ty :: rest) (hh : s.header = h0 :: h1 :: h2 :: h3 :: tl)
    (hf : s.chunk.fmt = 0 ∨ s.chunk.fmt = 1) :
    recvLengthType s
      = .ok { s with
              r := rest, header := ty :: l1 :: l2 :: l3 :: tl,
              chunk := { s.chunk with
                message := { s.chunk.message with
                  length := (be24Value l1 l2 l3 : Int), messageType := ty } } } := by
  unfold recvLengthType
  rw [if_pos hf, hr, hh]
  simp only [setAt, List.set_cons_zero, readInto_three, readInto_one]
  have hv : bigEndianUint32 (0 :: l1 :: l2 :: l3 :: tl) = be24Value l1 l2 l3 := by
    simp [bigEndianUint32, be24Value]
    omega
  simp [hv]

theorem recvLengthType_skip (s : RecvState) (hf : s.chunk.fmt = 2 ∨ s.chunk.fmt = 3) :
    recvLengthType s = .ok s := by
  unfold recvLengthType
  have : ¬ (s.chunk.fmt = 0 ∨ s.chunk.fmt = 1) := by
    rcases hf with hf | hf <;> rw [hf] <;> decide
  rw [if_neg this]

theorem recvMessageStreamID_wire (s : RecvState) (s1 s2 s3 s4 : Byte) (rest : Reader)
    (h0 h1 h2 h3 : Byte) (tl : List Byte)
    (hr : s.r = s1 :: s2 :: s3 :: s4 :: rest) (hh : s.header = h0 :: h1 :: h2 :: h3 :: tl)
    (hf : s.chunk.fmt = 0) :
    recvMessageStreamID s
      = .ok { s with
              r := rest, header := s1 :: s2 :: s3 :: s4 :: tl,
              chunk := { s.chunk with
                message := { s.chunk.message with
                  streamID := (le32Value s1 s2 s3 s4 : Int) } } } := by
  unfold recvMessageStreamID
  rw [if_pos hf, hr, hh]
  simp only [readInto_four]
  have hv : littleEndianUint32 (s1 :: s2 :: s3 :: s4 :: tl) = le32Value s1 s2 s3 s4 := by
    simp [littleEndianUint32, le32Value]
  simp [hv]

theorem recvMessageStreamID_skip (s : RecvState) (hf : s.chunk.fmt ≠ 0) :
    recvMessageStreamID s = .ok s := by
  unfold recvMessageStreamID
  rw [if_neg hf]

theorem recvExtendedTimestamp_wire (s : RecvState) (e1 e2 e3 e4 : Byte) (rest : Reader)
    (h0 h1 h2 h3 : Byte) (tl : List Byte)
    (hr : s.r = e1 :: e2 :: e3 :: e4 :: rest) (hh : s.header = h0 :: h1 :: h2 :: h3 :: tl)
    (he : s.chunk.message.extended = true) :
    recvExtendedTimestamp s
      = .ok { s with
              r := rest, header := e1 :: e2 :: e3 :: e4 :: tl,
              timestamp := (be32Value e1 e2 e3 e4 : Int) } := by
  unfold recvExtendedTimestamp
  rw [if_pos he, hr, hh]
  simp only [readInto_four]
  have hv : bigEndianUint32 (e1 :: e2 :: e3 :: e4 :: tl) = be32Value e1 e2 e3 e4 := by
    simp [bigEndianUint32, be32Value]
    omega
  simp [hv]

theorem recvExtendedTimestamp_skip (s : RecvState) (he : s.chunk.message.extended = false) :
    recvExtendedTimestamp s = .ok s := by
  unfold recvExtendedTimestamp
  simp [he]


theorem recvBasicHeader_wire (f : WireChunk) (rest : Reader) :
    ∃ h0, recvBasicHeader (f.basicHeader ++ rest)
      = .ok (rest, h0 :: List.replicate 15 0, f.b >>> 6, f.streamIDRead) := by
  unfold recvBasicHeader WireChunk.basicHeader WireChunk.streamIDRead
  have hrep : List.replicate 16 (0 : Byte) = 0 :: List.replicate 15 0 := rfl
  rw [hrep]
  simp only [List.cons_append, readInto_one, List.getD_cons_zero, and3f_val]
  by_cases h0 : f.b.val % 64 = 0
  · refine ⟨f.x, ?_⟩
    have a : ((f.b.val % 64 : Nat) : Int) = 0 := by omega
    simp only [if_pos a, if_pos h0, List.cons_append, List.nil_append, readInto_one,
      List.getD_cons_zero, add64_val]
  · by_cases h1 : f.b.val % 64 = 1
    · refine ⟨f.y, ?_⟩
      have a : ¬ ((f.b.val % 64 : Nat) : Int) = 0 := by omega
      have b : ((f.b.val % 64 : Nat) : Int) = 1 := by omega
      simp only [if_neg a, if_pos b, if_neg h0, if_pos h1, List.cons_append, List.nil_append,
        readInto_one, List.getD_cons_zero, add64_val, shl8_val]
      simp
    · refine ⟨f.b, ?_⟩
      have a : ¬ ((f.b.val % 64 : Nat) : Int) = 0 := by omega
      have b : ¬ ((f.b.val % 64 : Nat) : Int) = 1 := by omega
      simp only [if_neg a, if_neg b, if_neg h0, if_neg h1, List.nil_append]


theorem fmt_byte_cases (b : Byte) :
    (b >>> 6 = 0 ∧ b.val / 64 = 0) ∨ (b >>> 6 = 1 ∧ b.val / 64 = 1)
      ∨ (b >>> 6 = 2 ∧ b.val / 64 = 2) ∨ (b >>> 6 = 3 ∧ b.val / 64 = 3) := by
  have h := shr6_val b
  have hb := b.isLt
  have h3 : b.val / 64 ≤ 3 := by omega
  rcases fmt_cases (b >>> 6) (by omega) with h' | h' | h' | h' <;> rw [h'] at h ⊢
  · left; exact ⟨rfl, h.symm⟩
  · right; left; exact ⟨rfl, h.symm⟩
  · right; right; left; exact ⟨rfl, h.symm⟩
  · right; right; right; exact ⟨rfl, h.symm⟩

theorem recvHeader_of_steps (r : Reader) (prev : prevMessageFunc) (r1 : Reader)
    (h : List Byte) (fmt : Byte) (sid : Int) (p : rtmpMessage) (s1 s2 s3 s4 : RecvState)
    (hp : recvInherit (prev fmt sid) = p)
    (hb : recvBasicHeader r = .ok (r1, h, fmt, sid))
    (h1 : recvTimestampField
            { r := r1, header := h,
              chunk := { fmt := fmt, streamID := sid, message := p },
              timestamp := 0 } = .ok s1)
    (h2 : recvLengthType s1 = .ok s2)
    (h3 : recvMessageStreamID s2 = .ok s3)
    (h4 : recvExtendedTimestamp s3 = .ok s4) :
    recvHeader r prev = .ok (recvApplyTimestamp s4) := by
  unfold recvHeader
  rw [hb]
  simp only []
  rw [hp, h1]
  simp only []
  rw [h2]
  simp only []
  rw [h3]
  simp only []
  rw [h4]

theorem byte_two_ne_zero : (2 : Byte) ≠ 0 := by decide
theorem byte_one_ne_zero : (1 : Byte) ≠ 0 := by decide
theorem byte_three_ne_zero : (3 : Byte) ≠ 0 := by decide


theorem recvTimestampField_wire_lit (t1 t2 t3 : Byte) (rest : Reader) (h0 h1 h2 h3 : Byte)
    (tl : List Byte) (fmt : Byte) (sid : Int) (m : rtmpMessage) (ts : Int)
    (hf : fmt = 0 ∨ fmt = 1 ∨ fmt = 2) :
    recvTimestampField
        { r := t1 :: t2 :: t3 :: rest, header := h0 :: h1 :: h2 :: h3 :: tl,
          chunk := { fmt := fmt, streamID := sid, message := m }, timestamp := ts }
      = .ok { r := rest, header := 0 :: t1 :: t2 :: t3 :: tl,
              chunk := { fmt := fmt, streamID := sid,
                         message := { m with
                           extended := (m.extended || decide (be24Value t1 t2 t3 = 0xFFFFFF)) } },
              timestamp := (be24Value t1 t2 t3 : Int) } :=
  recvTimestampField_wire
    { r := t1 :: t2 :: t3 :: rest, header := h0 :: h1 :: h2 :: h3 :: tl,
      chunk := { fmt := fmt, streamID := sid, message := m }, timestamp := ts }
    t1 t2 t3 rest h0 h1 h2 h3 tl rfl rfl hf

theorem recvLengthType_wire_lit (l1 l2 l3 ty : Byte) (rest : Reader) (h0 h1 h2 h3 : Byte)
    (tl : List Byte) (fmt : Byte) (sid : Int) (m : rtmpMessage) (ts : Int)
    (hf : fmt = 0 ∨ fmt = 1) :
    recvLengthType
        { r := l1 :: l2 :: l3 :: ty :: rest, header := h0 :: h1 :: h2 :: h3 :: tl,
          chunk := { fmt := fmt, streamID := sid, message := m }, timestamp := ts }
      = .ok { r := rest, header := ty :: l1 :: l2 :: l3 :: tl,
              chunk := { fmt := fmt, streamID := sid,
                         message := { m with
                           length := (be24Value l1 l2 l3 : Int), messageType := ty } },
              timestamp := ts } :=
  recvLengthType_wire
    { r := l1 :: l2 :: l3 :: ty :: rest, header := h0 :: h1 :: h2 :: h3 :: tl,
      chunk := { fmt := fmt, streamID := sid, message := m }, timestamp := ts }
    l1 l2 l3 ty rest h0 h1 h2 h3 tl rfl rfl hf

theorem recvMessageStreamID_wire_lit (s1 s2 s3 s4 : Byte) (rest : Reader) (h0 h1 h2 h3 : Byte)
    (tl : List Byte) (sid : Int) (m : rtmpMessage) (ts : Int) :
    recvMessageStreamID
        { r := s1 :: s2 :: s3 :: s4 :: rest, header := h0 :: h1 :: h2 :: h3 :: tl,
          chunk := { fmt := 0, streamID := sid, message := m }, timestamp := ts }
      = .ok { r := rest, header := s1 :: s2 :: s3 :: s4 :: tl,
              chunk := { fmt := 0, streamID := sid,
                         message := { m with streamID := (le32Value s1 s2 s3 s4 : Int) } },
              timestamp := ts } :=
  recvMessageStreamID_wire
    { r := s1 :: s2 :: s3 :: s4 :: rest, header := h0 :: h1 :: h2 :: h3 :: tl,
      chunk := { fmt := 0, streamID := sid, message := m }, timestamp := ts }
    s1 s2 s3 s4 rest h0 h1 h2 h3 tl rfl rfl rfl

theorem recvExtendedTimestamp_wire_lit (e1 e2 e3 e4 : Byte) (rest : Reader) (h0 h1 h2 h3 : Byte)
    (tl : List Byte) (chunk : rtmpChunk) (ts : Int) (he : chunk.message.extended = true) :
    recvExtendedTimestamp
        { r := e1 :: e2 :: e3 :: e4 :: rest, header := h0 :: h1 :: h2 :: h3 :: tl,
          chunk := chunk, timestamp := ts }
      = .ok { r := rest, header := e1 :: e2 :: e3 :: e4 :: tl, chunk := chunk,
              timestamp := (be32Value e1 e2 e3 e4 : Int) } :=
  recvExtendedTimestamp_wire
    { r := e1 :: e2 :: e3 :: e4 :: rest, header := h0 :: h1 :: h2 :: h3 :: tl,
      chunk := chunk, timestamp := ts }
    e1 e2 e3 e4 rest h0 h1 h2 h3 tl rfl rfl he

theorem recvHeader_wire (f : WireChunk) (prev : prevMessageFunc) (rest : Reader) :
    ∃ s, recvHeader (f.header (recvInherit (prev (f.b >>> 6) f.streamIDRead)) ++ rest) prev
        = .ok s
      ∧ s.r = rest
      ∧ s.chunk = { fmt := f.b >>> 6, streamID := f.streamIDRead,
                    message := f.message (recvInherit (prev (f.b >>> 6) f.streamIDRead)) } := by
  generalize hp : recvInherit (prev (f.b >>> 6) f.streamIDRead) = p
  have hrep : List.replicate 15 (0 : Byte) = 0 :: 0 :: 0 :: List.replicate 12 0 := rfl
  rcases fmt_byte_cases f.b with ⟨hb, hf⟩ | ⟨hb, hf⟩ | ⟨hb, hf⟩ | ⟨hb, hf⟩
  · have hfmt : f.fmt = 0 := hf
    have hext : f.extended p = (p.extended || decide (be24Value f.t1 f.t2 f.t3 = 0xFFFFFF)) := by
      simp only [WireChunk.extended, hfmt]
      simp
    rw [hb] at hp ⊢
    cases he : f.extended p with
    | true =>
      have hlist : f.header p ++ rest = f.basicHeader ++
          (f.t1 :: f.t2 :: f.t3 :: f.l1 :: f.l2 :: f.l3 :: f.ty :: f.s1 :: f.s2 :: f.s3 ::
           f.s4 :: f.e1 :: f.e2 :: f.e3 :: f.e4 :: rest) := by
        simp [WireChunk.header, hfmt, he]
      obtain ⟨h0, hbh⟩ := recvBasicHeader_wire f
          (f.t1 :: f.t2 :: f.t3 :: f.l1 :: f.l2 :: f.l3 :: f.ty :: f.s1 :: f.s2 :: f.s3 ::
           f.s4 :: f.e1 :: f.e2 :: f.e3 :: f.e4 :: rest)
      rw [hrep, hb] at hbh
      rw [hlist]
      refine ⟨_, recvHeader_of_steps _ prev _ _ _ _ p _ _ _ _ hp hbh
        (recvTimestampField_wire_lit _ _ _ _ _ _ _ _ _ _ _ _ _ (Or.inl rfl))
        (recvLengthType_wire_lit _ _ _ _ _ _ _ _ _ _ _ _ _ _ (Or.inl rfl))
        (recvMessageStreamID_wire_lit _ _ _ _ _ _ _ _ _ _ _ _ _)
        (recvExtendedTimestamp_wire_lit _ _ _ _ _ _ _ _ _ _ _ _ (hext.symm.trans he)), rfl, ?_⟩
      simp [recvApplyTimestamp, WireChunk.message, WireChunk.timestampValue, hfmt, he, ← hext]
    | false =>
      have hlist : f.header p ++ rest = f.basicHeader ++
          (f.t1 :: f.t2 :: f.t3 :: f.l1 :: f.l2 :: f.l3 :: f.ty :: f.s1 :: f.s2 :: f.s3 ::
           f.s4 :: rest) := by
        simp [WireChunk.header, hfmt, he]
      obtain ⟨h0, hbh⟩ := recvBasicHeader_wire f
          (f.t1 :: f.t2 :: f.t3 :: f.l1 :: f.l2 :: f.l3 :: f.ty :: f.s1 :: f.s2 :: f.s3 ::
           f.s4 :: rest)
      rw [hrep, hb] at hbh
      rw [hlist]
      refine ⟨_, recvHeader_of_steps _ prev _ _ _ _ p _ _ _ _ hp hbh
        (recvTimestampField_wire_lit _ _ _ _ _ _ _ _ _ _ _ _ _ (Or.inl rfl))
        (recvLengthType_wire_lit _ _ _ _ _ _ _ _ _ _ _ _ _ _ (Or.inl rfl))
        (recvMessageStreamID_wire_lit _ _ _ _ _ _ _ _ _ _ _ _ _)
        (recvExtendedTimestamp_skip _ (hext.symm.trans he)), rfl, ?_⟩
      simp [recvApplyTimestamp, WireChunk.message, WireChunk.timestampValue, hfmt, he, ← hext]
  · have hfmt : f.fmt = 1 := hf
    have hext : f.extended p = (p.extended || decide (be24Value f.t1 f.t2 f.t3 = 0xFFFFFF)) := by
      simp only [WireChunk.extended, hfmt]
      simp
    rw [hb] at hp ⊢
    cases he : f.extended p with
    | true =>
      have hlist : f.header p ++ rest = f.basicHeader ++
          (f.t1 :: f.t2 :: f.t3 :: f.l1 :: f.l2 :: f.l3 :: f.ty :: f.e1 :: f.e2 :: f.e3 ::
           f.e4 :: rest) := by
        simp [WireChunk.header, hfmt, he]
      obtain ⟨h0, hbh⟩ := recvBasicHeader_wire f
          (f.t1 :: f.t2 :: f.t3 :: f.l1 :: f.l2 :: f.l3 :: f.ty :: f.e1 :: f.e2 :: f.e3 ::
           f.e4 :: rest)
      rw [hrep, hb] at hbh
      rw [hlist]
      refine ⟨_, recvHeader_of_steps _ prev _ _ _ _ p _ _ _ _ hp hbh
        (recvTimestampField_wire_lit _ _ _ _ _ _ _ _ _ _ _ _ _ (Or.inr (Or.inl rfl)))
        (recvLengthType_wire_lit _ _ _ _ _ _ _ _ _ _ _ _ _ _ (Or.inr rfl))
        (recvMessageStreamID_skip _ byte_one_ne_zero)
        (recvExtendedTimestamp_wire_lit _ _ _ _ _ _ _ _ _ _ _ _ (hext.symm.trans he)), rfl, ?_⟩
      simp [recvApplyTimestamp, WireChunk.message, WireChunk.timestampValue, hfmt, he, ← hext]
    | false =>
      have hlist : f.header p ++ rest = f.basicHeader ++
          (f.t1 :: f.t2 :: f.t3 :: f.l1 :: f.l2 :: f.l3 :: f.ty :: rest) := by
        simp [WireChunk.header, hfmt, he]
      obtain ⟨h0, hbh⟩ := recvBasicHeader_wire f
          (f.t1 :: f.t2 :: f.t3 :: f.l1 :: f.l2 :: f.l3 :: f.ty :: rest)
      rw [hrep, hb] at hbh
      rw [hlist]
      refine ⟨_, recvHeader_of_steps _ prev _ _ _ _ p _ _ _ _ hp hbh
        (recvTimestampField_wire_lit _ _ _ _ _ _ _ _ _ _ _ _ _ (Or.inr (Or.inl rfl)))
        (recvLengthType_wire_lit _ _ _ _ _ _ _ _ _ _ _ _ _ _ (Or.inr rfl))
        (recvMessageStreamID_skip _ byte_one_ne_zero)
        (recvExtendedTimestamp_skip _ (hext.symm.trans he)), rfl, ?_⟩
      simp [recvApplyTimestamp, WireChunk.message, WireChunk.timestampValue, hfmt, he, ← hext]
  · have hfmt : f.fmt = 2 := hf
    have hext : f.extended p = (p.extended || decide (be24Value f.t1 f.t2 f.t3 = 0xFFFFFF)) := by
      simp only [WireChunk.extended, hfmt]
      simp
    rw [hb] at hp ⊢
    cases he : f.extended p with
    | true =>
      have hlist : f.header p ++ rest = f.basicHeader ++
          (f.t1 :: f.t2 :: f.t3 :: f.e1 :: f.e2 :: f.e3 :: f.e4 :: rest) := by
        simp [WireChunk.header, hfmt, he]
      obtain ⟨h0, hbh⟩ := recvBasicHeader_wire f
          (f.t1 :: f.t2 :: f.t3 :: f.e1 :: f.e2 :: f.e3 :: f.e4 :: rest)
      rw [hrep, hb] at hbh
      rw [hlist]
      refine ⟨_, recvHeader_of_steps _ prev _ _ _ _ p _ _ _ _ hp hbh
        (recvTimestampField_wire_lit _ _ _ _ _ _ _ _ _ _ _ _ _ (Or.inr (Or.inr rfl)))
        (recvLengthType_skip _ (Or.inl rfl))
        (recvMessageStreamID_skip _ byte_two_ne_zero)
        (recvExtendedTimestamp_wire_lit _ _ _ _ _ _ _ _ _ _ _ _ (hext.symm.trans he)), rfl, ?_⟩
      simp [recvApplyTimestamp, WireChunk.message, WireChunk.timestampValue, hfmt, he, ← hext]
    | false =>
      have hlist : f.header p ++ rest = f.basicHeader ++ (f.t1 :: f.t2 :: f.t3 :: rest) := by
        simp [WireChunk.header, hfmt, he]
      obtain ⟨h0, hbh⟩ := recvBasicHeader_wire f (f.t1 :: f.t2 :: f.t3 :: rest)
      rw [hrep, hb] at hbh
      rw [hlist]
      refine ⟨_, recvHeader_of_steps _ prev _ _ _ _ p _ _ _ _ hp hbh
        (recvTimestampField_wire_lit _ _ _ _ _ _ _ _ _ _ _ _ _ (Or.inr (Or.inr rfl)))
        (recvLengthType_skip _ (Or.inl rfl))
        (recvMessageStreamID_skip _ byte_two_ne_zero)
        (recvExtendedTimestamp_skip _ (hext.symm.trans he)), rfl, ?_⟩
      simp [recvApplyTimestamp, WireChunk.message, WireChunk.timestampValue, hfmt, he, ← hext]
  · have hfmt : f.fmt = 3 := hf
    have hext : f.extended p = p.extended := by
      simp only [WireChunk.extended, hfmt]
      simp
    rw [hb] at hp ⊢
    cases he : f.extended p with
    | true =>
      have hlist : f.header p ++ rest = f.basicHeader ++
          (f.e1 :: f.e2 :: f.e3 :: f.e4 :: rest) := by
        simp [WireChunk.header, hfmt, he]
      obtain ⟨h0, hbh⟩ := recvBasicHeader_wire f (f.e1 :: f.e2 :: f.e3 :: f.e4 :: rest)
      rw [hrep, hb] at hbh
      rw [hlist]
      refine ⟨_, recvHeader_of_steps _ prev _ _ _ _ p _ _ _ _ hp hbh
        (recvTimestampField_skip _ rfl)
        (recvLengthType_skip _ (Or.inr rfl))
        (recvMessageStreamID_skip _ byte_three_ne_zero)
        (recvExtendedTimestamp_wire_lit _ _ _ _ _ _ _ _ _ _ _ _ (hext.symm.trans he)), rfl, ?_⟩
      simp [recvApplyTimestamp, WireChunk.message, WireChunk.timestampValue, hfmt, he, ← hext]
    | false =>
      have hlist : f.header p ++ rest = f.basicHeader ++ rest := by
        simp [WireChunk.header, hfmt, he]
      obtain ⟨h0, hbh⟩ := recvBasicHeader_wire f rest
      rw [hrep, hb] at hbh
      rw [hlist]
      refine ⟨_, recvHeader_of_steps _ prev _ _ _ _ p _ _ _ _ hp hbh
        (recvTimestampField_skip _ rfl)
        (recvLengthType_skip _ (Or.inr rfl))
        (recvMessageStreamID_skip _ byte_three_ne_zero)
        (recvExtendedTimestamp_skip _ (hext.symm.trans he)), rfl, ?_⟩
      simp [recvApplyTimestamp, WireChunk.message, WireChunk.timestampValue, hfmt, he, ← hext]

theorem recvTimestampField_frame (s s' : RecvState) (h : recvTimestampField s = .ok s') :
    ∃ e, s'.chunk = { s.chunk with message := { s.chunk.message with extended := e } }
      ∧ (s.chunk.fmt = 3 → e = s.chunk.message.extended ∧ s'.timestamp = s.timestamp) := by
  unfold recvTimestampField at h
  split_ifs at h with hf
  · dsimp only at h
    split at h
    · cases h
    · rename_i r header hread
      simp only [Outcome.ok.injEq] at h
      subst h
      refine ⟨(if ((bigEndianUint32 header : Nat) : Int) = 0xffffff then true
        else s.chunk.message.extended), ?_, ?_⟩
      · dsimp only
        split_ifs <;> rfl
      · intro h3
        rw [h3] at hf
        exact absurd hf (by decide)
  · simp only [Outcome.ok.injEq] at h
    subst h
    exact ⟨s.chunk.message.extended, rfl, fun _ => ⟨rfl, rfl⟩⟩

theorem recvLengthType_frame (s s' : RecvState) (h : recvLengthType s = .ok s') :
    ∃ l t, s'.chunk = { s.chunk with
                        message := { s.chunk.message with length := l, messageType := t } }
      ∧ s'.timestamp = s.timestamp
      ∧ (¬ (s.chunk.fmt = 0 ∨ s.chunk.fmt = 1) →
          l = s.chunk.message.length ∧ t = s.chunk.message.messageType) := by
  unfold recvLengthType at h
  split_ifs at h with hf
  · dsimp only at h
    split at h
    · cases h
    · split at h
      · cases h
      · simp only [Outcome.ok.injEq] at h
        subst h
        exact ⟨_, _, rfl, rfl, fun hn => absurd hf hn⟩
  · simp only [Outcome.ok.injEq] at h
    subst h
    exact ⟨_, _, rfl, rfl, fun _ => ⟨rfl, rfl⟩⟩

theorem recvMessageStreamID_frame (s s' : RecvState) (h : recvMessageStreamID s = .ok s') :
    ∃ i, s'.chunk = { s.chunk with message := { s.chunk.message with streamID := i } }
      ∧ s'.timestamp = s.timestamp
      ∧ (s.chunk.fmt ≠ 0 → i = s.chunk.message.streamID) := by
  unfold recvMessageStreamID at h
  split_ifs at h with hf
  · dsimp only at h
    split at h
    · cases h
    · simp only [Outcome.ok.injEq] at h
      subst h
      exact ⟨_, rfl, rfl, fun hn => absurd hf hn⟩
  · simp only [Outcome.ok.injEq] at h
    subst h
    exact ⟨_, rfl, rfl, fun _ => rfl⟩

theorem recvExtendedTimestamp_frame (s s' : RecvState) (h : recvExtendedTimestamp s = .ok s') :
    s'.chunk = s.chunk := by
  unfold recvExtendedTimestamp at h
  split_ifs at h with hf
  · split at h
    · cases h
    · simp only [Outcome.ok.injEq] at h
      subst h
      rfl
  · simp only [Outcome.ok.injEq] at h
    subst h
    rfl

theorem recvHeader_steps (r : Reader) (prev : prevMessageFunc) (s : RecvState)
    (h : recvHeader r prev = .ok s) :
    ∃ r1 hd fmt sid s1 s2 s3 s4,
      recvBasicHeader r = .ok (r1, hd, fmt, sid) ∧
      recvTimestampField
        { r := r1, header := hd,
          chunk := { fmt := fmt, streamID := sid, message := recvInherit (prev fmt sid) },
          timestamp := 0 } = .ok s1 ∧
      recvLengthType s1 = .ok s2 ∧ recvMessageStreamID s2 = .ok s3 ∧
      recvExtendedTimestamp s3 = .ok s4 ∧ s = recvApplyTimestamp s4 := by
  unfold recvHeader at h
  cases hb : recvBasicHeader r with
  | error e => rw [hb] at h; cases h
  | panic => rw [hb] at h; cases h
  | ok a =>
    obtain ⟨r1, hd, fmt, sid⟩ := a
    rw [hb] at h
    simp only [] at h
    cases h1 : recvTimestampField
        { r := r1, header := hd,
          chunk := { fmt := fmt, streamID := sid, message := recvInherit (prev fmt sid) },
          timestamp := 0 } with
    | error e => rw [h1] at h; cases h
    | panic => rw [h1] at h; cases h
    | ok s1 =>
      rw [h1] at h
      simp only [] at h
      cases h2 : recvLengthType s1 with
      | error e => rw [h2] at h; cases h
      | panic => rw [h2] at h; cases h
      | ok s2 =>
        rw [h2] at h
        simp only [] at h
        cases h3 : recvMessageStreamID s2 with
        | error e => rw [h3] at h; cases h
        | panic => rw [h3] at h; cases h
        | ok s3 =>
          rw [h3] at h
          simp only [] at h
          cases h4 : recvExtendedTimestamp s3 with
          | error e => rw [h4] at h; cases h
          | panic => rw [h4] at h; cases h
          | ok s4 =>
            rw [h4] at h
            simp only [Outcome.ok.injEq] at h
            exact ⟨r1, hd, fmt, sid, s1, s2, s3, s4, rfl, h1, h2, h3, h4, h.symm⟩

theorem recvInherit_eq (prev : Option rtmpMessage) : recvInherit prev = contextOf prev := by
  cases prev with
  | none => rfl
  | some p => cases p; rfl

theorem recvChunk_wire (f : WireChunk) (prev : prevMessageFunc) (rest : Reader) (N : Int)
    (p : rtmpMessage) (hp : recvInherit (prev (f.b >>> 6) f.streamIDRead) = p)
    (hN : 0 ≤ N)
    (hlen : (p.data.length : Int) ≤ (f.message p).length)
    (hin : min ((f.message p).length - p.data.length) N ≤ (rest.length : Int)) :
    recvChunk (f.header p ++ rest) prev N
      = .ok ({ fmt := f.b >>> 6, streamID := f.streamIDRead,
               message := { f.message p with
                 data := p.data
                   ++ rest.take (min ((f.message p).length - p.data.length) N).toNat } },
             rest.drop (min ((f.message p).length - p.data.length) N).toNat) := by
  obtain ⟨s, hs, hr, hc⟩ := recvHeader_wire f prev rest
  rw [hp] at hs hc
  have hd : s.chunk.message.data = p.data := by rw [hc]; rfl
  have hl : s.chunk.message.length = (f.message p).length := by rw [hc]
  unfold recvChunk
  rw [hs]
  simp only []
  rw [recvPayload_enough s N hN (by rw [hd, hl]; exact hlen) (by rw [hd, hl, hr]; exact hin)]
  rw [hd, hl, hr, hc]

/-- C2: a fresh format-0 chunk.  For a first byte `b` with `b >> 6 = 0` and
`b & 0x3F` in [2, 63], followed by the 3-byte timestamp field, the 3-byte
length field, the type byte, the 4-byte message stream id field, the 4-byte
extended field exactly when the timestamp field is `0xFFFFFF`, and at least
`min length N` payload bytes, `recvChunk` without a previous message and with
chunk size `N ≥ 0` returns no error and a chunk with format 0, chunk stream id
`b & 0x3F`, the big-endian length, the type byte, the little-endian message
stream id, `extended = (t24 = 0xFFFFFF)`, the timestamp (the big-endian
extended field when extended, the 24-bit field otherwise), delta 0 and
exactly the first `min length N` payload bytes as data. -/
theorem recvChunk_fresh_fmt0 (b t1 t2 t3 l1 l2 l3 ty s1 s2 s3 s4 e1 e2 e3 e4 : Byte)
    (payload : List Byte) (N : Int)
    (hfmt : b.val / 64 = 0) (hid : 2 ≤ b.val % 64) (hN : 0 ≤ N)
    (hpay : min (be24Value l1 l2 l3 : Int) N ≤ (payload.length : Int)) :
    recvChunk
        (b :: t1 :: t2 :: t3 :: l1 :: l2 :: l3 :: ty :: s1 :: s2 :: s3 :: s4
          :: ((if be24Value t1 t2 t3 = 0xFFFFFF then [e1, e2, e3, e4] else []) ++ payload))
        (fun _ _ => none) N
      = .ok ({ fmt := 0, streamID := ((b.val % 64 : Nat) : Int),
               message :=
                 { streamID := (le32Value s1 s2 s3 s4 : Int)
                   messageType := ty
                   length := (be24Value l1 l2 l3 : Int)
                   extended := decide (be24Value t1 t2 t3 = 0xFFFFFF)
                   timestamp :=
                     if be24Value t1 t2 t3 = 0xFFFFFF then (be32Value e1 e2 e3 e4 : Int)
                     else (be24Value t1 t2 t3 : Int)
                   timestampDelta := 0
                   data := payload.take (min (be24Value l1 l2 l3 : Int) N).toNat } },
             payload.drop (min (be24Value l1 l2 l3 : Int) N).toNat) := by
  have hb : b >>> 6 = 0 := by
    rcases fmt_byte_cases b with ⟨h, h'⟩ | ⟨h, h'⟩ | ⟨h, h'⟩ | ⟨h, h'⟩
    · exact h
    all_goals omega
  have h0 : ¬ b.val % 64 = 0 := by omega
  have h1 : ¬ b.val % 64 = 1 := by omega
  have key := recvChunk_wire
    { b := b, x := 0, y := 0, t1 := t1, t2 := t2, t3 := t3, l1 := l1, l2 := l2, l3 := l3,
      ty := ty, s1 := s1, s2 := s2, s3 := s3, s4 := s4, e1 := e1, e2 := e2, e3 := e3, e4 := e4 }
    (fun _ _ => none) payload N rtmpMessage.zero rfl hN
    (by simp [WireChunk.message, WireChunk.fmt, hfmt, rtmpMessage.zero])
    (by simpa [WireChunk.message, WireChunk.fmt, hfmt, rtmpMessage.zero] using hpay)
  simp only [WireChunk.header, WireChunk.basicHeader, WireChunk.fmt, WireChunk.extended,
    WireChunk.message, WireChunk.timestampValue, WireChunk.streamIDRead, hfmt, hb, h0, h1,
    rtmpMessage.zero] at key
  simpa using key

/-- The first case of `chunkRecvTests`: the 37 bytes of the test message at
chunk size 32 decode to the test message, and nothing is left to read. -/
theorem recvChunk_fresh_fmt0_witness :
    recvChunk
        (0x03 :: 0x00 :: 0x0B :: 0x68 :: 0x00 :: 0x00 :: 0x19 :: 0x14
          :: 0x01 :: 0x00 :: 0x00 :: 0x00 :: testMessage.data)
        (fun _ _ => none) 32
      = .ok ({ fmt := 0, streamID := 3, message := testMessage }, []) :=
  recvChunk_fresh_fmt0 0x03 0x00 0x0B 0x68 0x00 0x00 0x19 0x14 0x01 0x00 0x00 0x00 0 0 0 0
    testMessage.data 32 (by decide) (by decide) (by decide) (by decide)

theorem recvPayload_frame (s : RecvState) (N : Int) (c : rtmpChunk) (r' : Reader)
    (h : recvPayload s N = .ok (c, r')) :
    ∃ d, c = { s.chunk with message := { s.chunk.message with data := d } } := by
  unfold recvPayload at h
  dsimp only at h
  split_ifs at h
  all_goals
    split at h
    · cases h
    · simp only [Outcome.ok.injEq, Prod.mk.injEq] at h
      exact ⟨_, h.1.symm⟩

theorem recvChunk_wire_frame (f : WireChunk) (prev : Option rtmpMessage) (rest : Reader)
    (N : Int) (c : rtmpChunk) (r' : Reader)
    (h : recvChunk (f.header (contextOf prev) ++ rest) (fun _ _ => prev) N = .ok (c, r')) :
    ∃ d, c = { fmt := f.b >>> 6, streamID := f.streamIDRead,
               message := { f.message (contextOf prev) with data := d } } := by
  obtain ⟨s, hs, -, hc⟩ := recvHeader_wire f (fun _ _ => prev) rest
  simp only [recvInherit_eq] at hs hc
  unfold recvChunk at h
  rw [hs] at h
  simp only [] at h
  obtain ⟨d, hd⟩ := recvPayload_frame s N c r' h
  rw [hc] at hd
  exact ⟨d, hd⟩

/-- C6 fails as stated: under a context whose timestamp is `2^63 - 1`, the
largest `int64`, the format-2 chunk `83 00 00 01` with delta 1 is decoded
with timestamp `-2^63` and not `2^63 - 1 + 1`: the sum of line 224 is an
`int64` sum. -/
theorem recvChunk_timestamp_wraps :
    recvChunk [0x83, 0x00, 0x00, 0x01]
        (fun _ _ => some { rtmpMessage.zero with timestamp := 9223372036854775807 }) 8
      = .ok (⟨2, 3, { rtmpMessage.zero with timestamp := -9223372036854775808,
                                            timestampDelta := 1 }⟩, [])
      ∧ (-9223372036854775808 : Int) ≠ 9223372036854775807 + 1 := by
  decide

/-- C6, amended: timestamp application.  For every previous-message context `p`
(an absent one counts as all-zero) and every chunk header `f` on the wire that
`recvChunk` decodes successfully under it, with `t` the big-endian value of
the 4-byte extended field when the working message is extended and the 24-bit
timestamp field otherwise: format 0 gives `timestamp = t` and delta 0; formats
1 and 2 give delta `t` and the `int64` sum of `p.timestamp` and `t` as
timestamp; format 3 gives delta `p.timestampDelta` and the `int64` sum of
`p.timestamp` and `p.timestampDelta` as timestamp.  The `int64` sum is the sum
reduced modulo `2^64` into the range from `-2^63` to `2^63 - 1`, and is the
sum itself whenever that lies in this range.  Decoding the four chunks of the
test (formats 0, 1, 2, 3; timestamp 2920, deltas 20 and 42) in sequence gives
the timestamps 2920, 2940, 2982, 3024. -/
theorem recvChunk_timestamps (f : WireChunk) (prev : Option rtmpMessage) (rest : Reader)
    (N : Int) (c : rtmpChunk) (r' : Reader)
    (h : recvChunk (f.header (contextOf prev) ++ rest) (fun _ _ => prev) N = .ok (c, r')) :
    c.fmt.val = f.fmt
    ∧ (f.fmt = 0 →
        c.message.timestamp = (f.timestampValue (contextOf prev) : Int)
          ∧ c.message.timestampDelta = 0)
    ∧ (f.fmt = 1 ∨ f.fmt = 2 →
        c.message.timestampDelta = (f.timestampValue (contextOf prev) : Int)
          ∧ c.message.timestamp
              = ((contextOf prev).timestamp + (f.timestampValue (contextOf prev) : Int)
                  + 9223372036854775808) % 18446744073709551616 - 9223372036854775808
          ∧ (-9223372036854775808
                ≤ (contextOf prev).timestamp + (f.timestampValue (contextOf prev) : Int) →
              (contextOf prev).timestamp + (f.timestampValue (contextOf prev) : Int)
                < 9223372036854775808 →
              c.message.timestamp
                = (contextOf prev).timestamp + (f.timestampValue (contextOf prev) : Int)))
    ∧ (f.fmt = 3 →
        c.message.timestampDelta = (contextOf prev).timestampDelta
          ∧ c.message.timestamp
              = ((contextOf prev).timestamp + (contextOf prev).timestampDelta
                  + 9223372036854775808) % 18446744073709551616 - 9223372036854775808
          ∧ (-9223372036854775808
                ≤ (contextOf prev).timestamp + (contextOf prev).timestampDelta →
              (contextOf prev).timestamp + (contextOf prev).timestampDelta
                < 9223372036854775808 →
              c.message.timestamp
                = (contextOf prev).timestamp + (contextOf prev).timestampDelta))
    ∧ (recvSequence 8 none recvTestInputs).map (List.map (fun c => c.message.timestamp))
        = some [2920, 2940, 2982, 3024] := by
  obtain ⟨d, hd⟩ := recvChunk_wire_frame f prev rest N c r' h
  subst hd
  refine ⟨shr6_val f.b, ?_, ?_, ?_, by decide⟩
  · intro h0
    simp [WireChunk.message, h0]
  · intro h12
    have ht : (f.message (contextOf prev)).timestampDelta
          = (f.timestampValue (contextOf prev) : Int)
        ∧ (f.message (contextOf prev)).timestamp
          = wrapInt64 ((contextOf prev).timestamp + (f.timestampValue (contextOf prev) : Int)) := by
      rcases h12 with h1 | h2
      · simp [WireChunk.message, h1]
      · simp [WireChunk.message, h2]
    exact ⟨ht.1, ht.2, fun hlo hhi => ht.2.trans (wrapInt64_of_range _ hlo hhi)⟩
  · intro h3
    have ht : (f.message (contextOf prev)).timestampDelta = (contextOf prev).timestampDelta
        ∧ (f.message (contextOf prev)).timestamp
          = wrapInt64 ((contextOf prev).timestamp + (contextOf prev).timestampDelta) := by
      simp [WireChunk.message, h3]
    exact ⟨ht.1, ht.2, fun hlo hhi => ht.2.trans (wrapInt64_of_range _ hlo hhi)⟩

/-- The format-1 chunk of the test with delta 20, decoded after a message
with timestamp 2920: delta 20 and timestamp 2940. -/
theorem recvChunk_timestamps_witness :
    recvChunk (secondWireChunk.header (contextOf (some partialMessage)) ++ secondState.r)
        (fun _ _ => some partialMessage) 16 = .ok (secondChunk, [])
      ∧ secondChunk.message.timestampDelta = 20
      ∧ secondChunk.message.timestamp = 2920 + 20 :=
  ⟨by decide,
   ((recvChunk_timestamps secondWireChunk (some partialMessage) secondState.r 16 secondChunk []
      (by decide)).2.2.1 (Or.inl rfl)).1,
   ((recvChunk_timestamps secondWireChunk (some partialMessage) secondState.r 16 secondChunk []
      (by decide)).2.2.1 (Or.inl rfl)).2.2 (by decide) (by decide)⟩

theorem recvHeader_frame (r : Reader) (prev : prevMessageFunc) (s : RecvState)
    (h : recvHeader r prev = .ok s) :
    s.chunk.message.data = (recvInherit (prev s.chunk.fmt s.chunk.streamID)).data
    ∧ (s.chunk.fmt ≠ 0 →
        s.chunk.message.streamID = (recvInherit (prev s.chunk.fmt s.chunk.streamID)).streamID)
    ∧ (¬ (s.chunk.fmt = 0 ∨ s.chunk.fmt = 1) →
        s.chunk.message.length = (recvInherit (prev s.chunk.fmt s.chunk.streamID)).length
        ∧ s.chunk.message.messageType
            = (recvInherit (prev s.chunk.fmt s.chunk.streamID)).messageType)
    ∧ (s.chunk.fmt = 3 →
        s.chunk.message.extended = (recvInherit (prev s.chunk.fmt s.chunk.streamID)).extended) := by
  obtain ⟨r1, hd, fmt, sid, s1, s2, s3, s4, -, h1, h2, h3, h4, hs⟩ :=
    recvHeader_steps r prev s h
  obtain ⟨e, he, he3⟩ := recvTimestampField_frame _ _ h1
  obtain ⟨l, t, hlt, -, hlt'⟩ := recvLengthType_frame _ _ h2
  obtain ⟨i, hi, -, hi'⟩ := recvMessageStreamID_frame _ _ h3
  have h4' := recvExtendedTimestamp_frame _ _ h4
  have hc : s.chunk = (recvApplyTimestamp s4).chunk := by rw [hs]
  simp only [recvApplyTimestamp, h4', hi, hlt, he] at hc
  simp only [hlt, he] at hi' hlt'
  simp only [] at he3
  rw [hc]
  refine ⟨?_, ?_, ?_, ?_⟩
  · split_ifs <;> rfl
  · intro hf
    have := hi' hf
    split_ifs <;> simp [this]
  · intro hf
    have := hlt' hf
    split_ifs <;> simp [this]
  · intro hf
    have := (he3 hf).1
    split_ifs <;> simp [this]

/-- C7: header inheritance.  For every previous message `p` and every chunk
`recvChunk` decodes successfully under it, the message stream id is `p`'s for
formats 1, 2, 3; length and message type are `p`'s for formats 2, 3; the
extended flag is `p`'s for format 3.  Without a previous message these fields
are zero and false. -/
theorem recvChunk_inherits (r : Reader) (prev : Option rtmpMessage) (N : Int)
    (c : rtmpChunk) (r' : Reader)
    (h : recvChunk r (fun _ _ => prev) N = .ok (c, r')) :
    ((c.fmt = 1 ∨ c.fmt = 2 ∨ c.fmt = 3) →
        c.message.streamID = (contextOf prev).streamID)
    ∧ ((c.fmt = 2 ∨ c.fmt = 3) →
        c.message.length = (contextOf prev).length
        ∧ c.message.messageType = (contextOf prev).messageType)
    ∧ (c.fmt = 3 → c.message.extended = (contextOf prev).extended)
    ∧ (prev = none →
        ((c.fmt = 1 ∨ c.fmt = 2 ∨ c.fmt = 3) → c.message.streamID = 0)
        ∧ ((c.fmt = 2 ∨ c.fmt = 3) → c.message.length = 0 ∧ c.message.messageType = 0)
        ∧ (c.fmt = 3 → c.message.extended = false)) := by
  unfold recvChunk at h
  cases hh : recvHeader r (fun _ _ => prev) with
  | error e => rw [hh] at h; cases h
  | panic => rw [hh] at h; cases h
  | ok s =>
    rw [hh] at h
    simp only [] at h
    obtain ⟨d, hd⟩ := recvPayload_frame s N c r' h
    obtain ⟨-, hid, hlt, hext⟩ := recvHeader_frame r _ s hh
    simp only [recvInherit_eq] at hid hlt hext
    subst hd
    have key : ((s.chunk.fmt = 1 ∨ s.chunk.fmt = 2 ∨ s.chunk.fmt = 3) →
          s.chunk.message.streamID = (contextOf prev).streamID)
        ∧ ((s.chunk.fmt = 2 ∨ s.chunk.fmt = 3) →
          s.chunk.message.length = (contextOf prev).length
          ∧ s.chunk.message.messageType = (contextOf prev).messageType)
        ∧ (s.chunk.fmt = 3 → s.chunk.message.extended = (contextOf prev).extended) := by
      refine ⟨fun hf => hid ?_, fun hf => hlt ?_, hext⟩
      · rcases hf with hf | hf | hf <;> rw [hf] <;> decide
      · rcases hf with hf | hf <;> rw [hf] <;> decide
    refine ⟨key.1, key.2.1, key.2.2, ?_⟩
    intro hnone
    subst hnone
    exact key

/-- The format-3 chunk `C3 05` of the test, decoded after `thirdMessage`:
message stream id, length, type and extended flag are those of
`thirdMessage`. -/
theorem recvChunk_inherits_witness :
    recvChunk [0xC3, 0x05] (fun _ _ => some thirdMessage) 8 = .ok (lastChunk, [])
      ∧ lastChunk.message.streamID = thirdMessage.streamID
      ∧ lastChunk.message.length = thirdMessage.length
      ∧ lastChunk.message.messageType = thirdMessage.messageType
      ∧ lastChunk.message.extended = thirdMessage.extended :=
  ⟨by decide,
   (recvChunk_inherits [0xC3, 0x05] (some thirdMessage) 8 lastChunk [] (by decide)).1
      (Or.inr (Or.inr rfl)),
   ((recvChunk_inherits [0xC3, 0x05] (some thirdMessage) 8 lastChunk [] (by decide)).2.1
      (Or.inr rfl)).1,
   ((recvChunk_inherits [0xC3, 0x05] (some thirdMessage) 8 lastChunk [] (by decide)).2.1
      (Or.inr rfl)).2,
   (recvChunk_inherits [0xC3, 0x05] (some thirdMessage) 8 lastChunk [] (by decide)).2.2.1 rfl⟩

/-- C8: payload read and accumulation.  For every previous-message context `p`
and every input whose header `recvChunk` decodes under it to a working message
of length `L`, at chunk size `N ≥ 0`, with `len(p.data) ≤ L` and at least
`min (L - len(p.data)) N` bytes left after the header: `recvChunk` returns the
chunk with data `p.data` followed by exactly the next `min (L - len(p.data)) N`
input bytes and leaves the rest of the input unread; so `len(data) ≤ L`, and
`len(data) = L` when `L - len(p.data) ≤ N` (the last fragment).  For formats 2
and 3, `L` is `p.length`. -/
theorem recvChunk_payload (r : Reader) (prev : Option rtmpMessage) (N : Int) (s : RecvState)
    (hh : recvHeader r (fun _ _ => prev) = .ok s) (hN : 0 ≤ N)
    (hlen : ((contextOf prev).data.length : Int) ≤ s.chunk.message.length)
    (hin : min (s.chunk.message.length - ((contextOf prev).data.length : Int)) N
      ≤ (s.r.length : Int)) :
    recvChunk r (fun _ _ => prev) N
      = .ok ({ s.chunk with
                message := { s.chunk.message with
                  data := (contextOf prev).data ++ s.r.take
                    (min (s.chunk.message.length - ((contextOf prev).data.length : Int))
                      N).toNat } },
             s.r.drop
               (min (s.chunk.message.length - ((contextOf prev).data.length : Int)) N).toNat)
    ∧ ((((contextOf prev).data ++ s.r.take
          (min (s.chunk.message.length - ((contextOf prev).data.length : Int)) N).toNat).length
          : Int) ≤ s.chunk.message.length)
    ∧ (s.chunk.message.length - ((contextOf prev).data.length : Int) ≤ N →
        ((((contextOf prev).data ++ s.r.take
          (min (s.chunk.message.length - ((contextOf prev).data.length : Int)) N).toNat).length
          : Int) = s.chunk.message.length))
    ∧ ((s.chunk.fmt = 2 ∨ s.chunk.fmt = 3) →
        s.chunk.message.length = (contextOf prev).length) := by
  obtain ⟨hd, -, hlt, -⟩ := recvHeader_frame r _ s hh
  simp only [recvInherit_eq] at hd hlt
  have hlen' : (s.chunk.message.data.length : Int) ≤ s.chunk.message.length := by
    rw [hd]; exact hlen
  have hin' : min (s.chunk.message.length - (s.chunk.message.data.length : Int)) N
      ≤ (s.r.length : Int) := by
    rw [hd]; exact hin
  have hp := recvPayload_enough s N hN hlen' hin'
  rw [hd] at hp
  refine ⟨?_, ?_, ?_, ?_⟩
  · unfold recvChunk
    rw [hh]
    exact hp
  · simp only [List.length_append, List.length_take]
    omega
  · intro hle
    simp only [List.length_append, List.length_take]
    omega
  · intro hf
    refine (hlt ?_).1
    rcases hf with hf | hf <;> rw [hf] <;> decide

/-- The second chunk of the second case of `chunkRecvTests` (chunk size 16):
the header decodes to `secondState`, and the nine bytes left of the 25 are
appended to the sixteen already there. -/
theorem recvChunk_payload_witness :
    recvHeader secondInput (fun _ _ => some partialMessage) = .ok secondState
      ∧ recvChunk secondInput (fun _ _ => some partialMessage) 16 = .ok (secondChunk, []) :=
  ⟨by decide,
   (recvChunk_payload secondInput (some partialMessage) 16 secondState
      (by decide) (by decide) (by decide) (by decide)).1⟩

/-! ## The round trip -/

theorem shl6_lor_val (fmt i : Byte) (hf : fmt.val ≤ 3) (hi : i.val < 64) :
    ((fmt <<< 6) ||| i).val = fmt.val * 64 + i.val := by
  rw [lor_val, shl6_val]
  have h1 : fmt.val * 64 % 256 = 2 ^ 6 * fmt.val := by omega
  rw [h1]
  have hi' : i.val < 2 ^ 6 := hi
  rw [← Nat.mul_add_lt_is_or hi' fmt.val]
  omega

theorem wireOf_basicHeader (c : rtmpChunk) (hfmt : c.fmt.val ≤ 3)
    (hlo : 2 ≤ c.streamID) (hhi : c.streamID ≤ 65599) :
    sendBasicHeader [] c = some (wireOf c).basicHeader ∧ (wireOf c).fmt = c.fmt.val := by
  have hshl : (c.fmt <<< 6).val = c.fmt.val * 64 := by
    rw [shl6_val]; omega
  by_cases h1 : c.streamID < 64
  · have hbh : sendBasicHeader [] c = some [(c.fmt <<< 6) ||| toByte c.streamID] := by
      simp [sendBasicHeader, h1]
    have hid : (toByte c.streamID).val = c.streamID.toNat := by
      rw [toByte_val]; omega
    have hb : ((c.fmt <<< 6) ||| toByte c.streamID).val = c.fmt.val * 64 + c.streamID.toNat := by
      rw [shl6_lor_val _ _ hfmt (by omega), hid]
    have hm0 : ¬ ((c.fmt <<< 6) ||| toByte c.streamID).val % 64 = 0 := by omega
    have hm1 : ¬ ((c.fmt <<< 6) ||| toByte c.streamID).val % 64 = 1 := by omega
    constructor
    · simp [wireOf, WireChunk.basicHeader, hbh, hm0, hm1]
    · simp only [wireOf, WireChunk.fmt, hbh, Option.getD_some, List.getD_cons_zero]
      omega
  · by_cases h2 : c.streamID < 320
    · have hbh : sendBasicHeader [] c = some [c.fmt <<< 6, toByte (c.streamID - 64)] := by
        simp [sendBasicHeader, h1, h2]
      have hm0 : (c.fmt <<< 6).val % 64 = 0 := by omega
      constructor
      · simp [wireOf, WireChunk.basicHeader, hbh, hm0]
      · simp only [wireOf, WireChunk.fmt, hbh, Option.getD_some, List.getD_cons_zero]
        omega
    · have h3 : c.streamID < 65600 := by omega
      have hbh : sendBasicHeader [] c = some [(c.fmt <<< 6) ||| 1, toByte (c.streamID - 64),
          toByte ((c.streamID - 64) >>> (8 : Nat))] := by
        simp [sendBasicHeader, h1, h2, h3]
      have hb : ((c.fmt <<< 6) ||| 1).val = c.fmt.val * 64 + 1 := by
        rw [shl6_lor_val _ _ hfmt (by decide)]; rfl
      have hm0 : ¬ ((c.fmt <<< 6) ||| 1).val % 64 = 0 := by omega
      have hm1 : ((c.fmt <<< 6) ||| 1).val % 64 = 1 := by omega
      constructor
      · simp [wireOf, WireChunk.basicHeader, hbh, hm0, hm1]
      · simp only [wireOf, WireChunk.fmt, hbh, Option.getD_some, List.getD_cons_zero]
        omega


theorem be24Value_put (n : Nat) (h : n < 16777216) :
    be24Value (Fin.ofNat (n / 65536)) (Fin.ofNat (n / 256)) (Fin.ofNat n) = n := by
  simp only [be24Value, ofNat_val]
  omega

theorem be32Value_put (n : Nat) (h : n < 4294967296) :
    be32Value (Fin.ofNat (n / 16777216)) (Fin.ofNat (n / 65536)) (Fin.ofNat (n / 256))
      (Fin.ofNat n) = n := by
  simp only [be32Value, ofNat_val]
  omega

theorem le32Value_put (n : Nat) (h : n < 4294967296) :
    le32Value (Fin.ofNat n) (Fin.ofNat (n / 256)) (Fin.ofNat (n / 65536))
      (Fin.ofNat (n / 16777216)) = n := by
  simp only [le32Value, ofNat_val]
  omega

theorem sendChunk_fmt0_wire (c : rtmpChunk) (p : rtmpMessage) (hfmt : c.fmt = 0)
    (hlo : 2 ≤ c.streamID) (hhi : c.streamID ≤ 65599)
    (hlen0 : 0 ≤ c.message.length) (hlen : c.message.length < 16777216)
    (hsid0 : 0 ≤ c.message.streamID) (hsid : c.message.streamID < 4294967296)
    (hts0 : 0 ≤ c.message.timestamp) (hts : c.message.timestamp < 4294967296)
    (hne : c.message.timestamp ≠ 0xFFFFFF)
    (hext : c.message.extended = decide (c.message.timestamp > 0xFFFFFF))
    (hp : p.extended = false) :
    sendChunk [] c = ((wireOf c).header p ++ c.message.data, none)
      ∧ (wireOf c).message p
          = { c.message with timestampDelta := 0, data := p.data } := by
  have hfv : c.fmt.val ≤ 3 := by rw [hfmt]; decide
  obtain ⟨hbh, hf⟩ := wireOf_basicHeader c hfv hlo hhi
  have hf0 : (wireOf c).fmt = 0 := by rw [hf, hfmt]; rfl
  have htsend : timestampToSend c = c.message.timestamp := by simp [timestampToSend, hfmt]
  have hlenU := toUint32_of_range _ hlen0 (by omega : c.message.length < 4294967296)
  have hsidU := toUint32_of_range _ hsid0 hsid
  have htsU := toUint32_of_range _ hts0 hts
  have hid : ¬ (c.streamID = 0 ∨ c.streamID = 1) := by omega
  have hts' : (if c.fmt ≠ 0 then c.message.timestampDelta else c.message.timestamp)
      = c.message.timestamp := by simp [hfmt]
  have hl : ((be24Value (wireOf c).l1 (wireOf c).l2 (wireOf c).l3 : Nat) : Int)
      = c.message.length := by
    simp only [wireOf, hlenU]
    rw [be24Value_put _ (by omega)]
    omega
  have hs : ((le32Value (wireOf c).s1 (wireOf c).s2 (wireOf c).s3 (wireOf c).s4 : Nat) : Int)
      = c.message.streamID := by
    simp only [wireOf, hsidU]
    rw [le32Value_put _ (by omega)]
    omega
  have hev : ((be32Value (wireOf c).e1 (wireOf c).e2 (wireOf c).e3 (wireOf c).e4 : Nat) : Int)
      = c.message.timestamp := by
    simp only [wireOf, htsend, htsU]
    rw [be32Value_put _ (by omega)]
    omega
  have hty : (wireOf c).ty = c.message.messageType := rfl
  by_cases hbig : c.message.timestamp > 0xFFFFFF
  · have he : c.message.extended = true := by simp [hext, hbig]
    have ht24 : be24Value (wireOf c).t1 (wireOf c).t2 (wireOf c).t3 = 0xFFFFFF := by
      simp only [wireOf, htsend, if_pos hbig]
      exact be24Value_put _ (by decide)
    have hwe : (wireOf c).extended p = true := by
      simp [WireChunk.extended, hf0, ht24]
    have hnle : ¬ c.message.timestamp ≤ 0xffffff := by omega
    constructor
    · have hhdr : (wireOf c).header p = (wireOf c).basicHeader
          ++ [(wireOf c).t1, (wireOf c).t2, (wireOf c).t3, (wireOf c).l1, (wireOf c).l2,
              (wireOf c).l3, (wireOf c).ty, (wireOf c).s1, (wireOf c).s2, (wireOf c).s3,
              (wireOf c).s4, (wireOf c).e1, (wireOf c).e2, (wireOf c).e3, (wireOf c).e4] := by
        simp [WireChunk.header, hf0, hwe]
      rw [hhdr]
      unfold sendChunk
      rw [if_neg hid, hbh]
      generalize (wireOf c).basicHeader = B
      simp only [hts', sendTimestampField, sendLengthType, sendMessageStreamID, hfmt, he]
      simp [wireOf, htsend, hbig, hnle, bigEndianPutUint32, littleEndianPutUint32]
    · simp only [WireChunk.message, WireChunk.timestampValue, hf0, hwe, hl, hs, hev, hty, he]
      simp
      exact hev
  · have he : c.message.extended = false := by simp [hext, hbig]
    have hlt : c.message.timestamp < 0xFFFFFF := by omega
    have ht24 : ((be24Value (wireOf c).t1 (wireOf c).t2 (wireOf c).t3 : Nat) : Int)
        = c.message.timestamp := by
      simp only [wireOf, htsend, if_neg hbig, htsU]
      rw [be24Value_put _ (by omega)]
      omega
    have ht24' : ¬ be24Value (wireOf c).t1 (wireOf c).t2 (wireOf c).t3 = 0xFFFFFF := by
      omega
    have hwe : (wireOf c).extended p = false := by
      simp [WireChunk.extended, hf0, ht24', hp]
    constructor
    · have hhdr : (wireOf c).header p = (wireOf c).basicHeader
          ++ [(wireOf c).t1, (wireOf c).t2, (wireOf c).t3, (wireOf c).l1, (wireOf c).l2,
              (wireOf c).l3, (wireOf c).ty, (wireOf c).s1, (wireOf c).s2, (wireOf c).s3,
              (wireOf c).s4] := by
        simp [WireChunk.header, hf0, hwe]
      rw [hhdr]
      unfold sendChunk
      rw [if_neg hid, hbh]
      generalize (wireOf c).basicHeader = B
      simp only [hts', sendTimestampField, sendLengthType, sendMessageStreamID, hfmt, he]
      simp [wireOf, htsend, hbig, bigEndianPutUint32, littleEndianPutUint32]
    · simp only [WireChunk.message, WireChunk.timestampValue, hf0, hwe, hl, hs, ht24, hty, he]
      simp
      exact ht24


theorem sendChunk_fmt3_wire (c : rtmpChunk) (p : rtmpMessage) (hfmt : c.fmt = 3)
    (hlo : 2 ≤ c.streamID) (hhi : c.streamID ≤ 65599)
    (he : c.message.extended = false) (hp : p.extended = false) :
    sendChunk [] c = ((wireOf c).header p ++ c.message.data, none)
      ∧ (wireOf c).message p
          = { p with timestamp := wrapInt64 (p.timestamp + p.timestampDelta) } := by
  have hfv : c.fmt.val ≤ 3 := by rw [hfmt]; decide
  obtain ⟨hbh, hf⟩ := wireOf_basicHeader c hfv hlo hhi
  have hf3 : (wireOf c).fmt = 3 := by rw [hf, hfmt]; rfl
  have hid : ¬ (c.streamID = 0 ∨ c.streamID = 1) := by omega
  have hwe : (wireOf c).extended p = false := by
    simp [WireChunk.extended, hf3, hp]
  constructor
  · have hhdr : (wireOf c).header p = (wireOf c).basicHeader := by
      simp [WireChunk.header, hf3, hwe]
    rw [hhdr]
    unfold sendChunk
    rw [if_neg hid, hbh]
    generalize (wireOf c).basicHeader = B
    simp only [sendTimestampField, sendLengthType, sendMessageStreamID, hfmt, he]
    simp
  · simp only [WireChunk.message, hf3, hwe]
    simp [hp]

theorem recvChunk_of_sent (c : rtmpChunk) (prev : Option rtmpMessage) (N : Int)
    (m : rtmpMessage)
    (hsend : sendChunk [] c = ((wireOf c).header (contextOf prev) ++ c.message.data, none))
    (hm : (wireOf c).message (contextOf prev) = m)
    (hN : 0 ≤ N)
    (hlen : ((contextOf prev).data.length : Int) ≤ m.length)
    (hdata : (c.message.data.length : Int)
      = min (m.length - ((contextOf prev).data.length : Int)) N) :
    ∃ fmt sid, recvChunk (sendChunk [] c).1 (fun _ _ => prev) N
      = .ok ({ fmt := fmt, streamID := sid,
               message := { m with data := (contextOf prev).data ++ c.message.data } }, []) := by
  have hp : recvInherit ((fun (_ : Byte) (_ : Int) => prev) ((wireOf c).b >>> 6)
      (wireOf c).streamIDRead) = contextOf prev := recvInherit_eq prev
  have key := recvChunk_wire (wireOf c) (fun _ _ => prev) c.message.data N (contextOf prev) hp hN
    (by rw [hm]; exact hlen) (by rw [hm, ← hdata])
  rw [hm, ← hdata] at key
  refine ⟨(wireOf c).b >>> 6, (wireOf c).streamIDRead, ?_⟩
  rw [hsend]
  simpa using key

theorem fragment_roundtrip (m : rtmpMessage) (c : Int) (N : Nat) (h : RoundTrips m N)
    (hlo : 2 ≤ c) (hhi : c ≤ 65599) (i : Nat) (hi : i < fragmentCount m.data.length N) :
    (sendChunk [] (fragmentSpec m c N i)).2 = none
    ∧ ∃ fmt sid, recvChunk (sendChunk [] (fragmentSpec m c N i)).1
        (fun _ _ => contextBefore m N i) (N : Int)
        = .ok ({ fmt := fmt, streamID := sid, message := messageAfter m N (i + 1) }, []) := by
  have hN := h.chunkSize_pos
  have hiN : i * N < m.data.length := (lt_fragmentCount _ _ _ hN).1 hi
  have hmul : (i + 1) * N = i * N + N := by ring
  have hlen := h.length_eq
  by_cases h0 : i = 0
  · subst h0
    obtain ⟨hsend, hm⟩ := sendChunk_fmt0_wire (fragmentSpec m c N 0) rtmpMessage.zero rfl
      hlo hhi (by simp only [fragmentSpec]; omega)
      (by have := h.length_lt; simp only [fragmentSpec]; omega)
      h.streamID_nonneg h.streamID_lt h.timestamp_nonneg h.timestamp_lt h.timestamp_ne
      h.extended_eq rfl
    have hctx : contextOf (contextBefore m N 0) = rtmpMessage.zero := rfl
    constructor
    · rw [hsend]
    · rw [← hctx] at hsend hm
      obtain ⟨fmt, sid, hr⟩ := recvChunk_of_sent (fragmentSpec m c N 0) (contextBefore m N 0)
        (N : Int) _ hsend hm (by omega)
        (by simp only [hctx, rtmpMessage.zero, fragmentSpec, List.length_nil]; omega)
        (by
          simp only [hctx, rtmpMessage.zero, fragmentSpec, sliceSpec, List.length_nil,
            List.length_drop, List.length_take]
          omega)
      refine ⟨fmt, sid, ?_⟩
      rw [hr]
      simp [messageAfter, fragmentSpec, sliceSpec, hctx, rtmpMessage.zero, h.delta_zero]
  · have hnotbig : ¬ m.timestamp > 0xFFFFFF := by
      intro hb
      have := h.single_if_extended hb
      have : 1 * N ≤ i * N := Nat.mul_le_mul_right N (by omega)
      omega
    have hext : m.extended = false := by
      rw [h.extended_eq]; simp [hnotbig]
    have hfmt : (fragmentSpec m c N i).fmt = 3 := by simp [fragmentSpec, h0]
    have hctx : contextOf (contextBefore m N i) = messageAfter m N i := by
      simp [contextBefore, contextOf, h0]
    obtain ⟨hsend, hm⟩ := sendChunk_fmt3_wire (fragmentSpec m c N i) (messageAfter m N i) hfmt
      hlo hhi hext hext
    have hm' : (wireOf (fragmentSpec m c N i)).message (messageAfter m N i)
        = messageAfter m N i := by
      have hw : wrapInt64 m.timestamp = m.timestamp :=
        wrapInt64_of_range m.timestamp (by have := h.timestamp_nonneg; omega)
          (by have := h.timestamp_lt; omega)
      rw [hm]
      simp [messageAfter, h.delta_zero, hw]
    constructor
    · rw [hsend]
    · rw [← hctx] at hsend hm'
      obtain ⟨fmt, sid, hr⟩ := recvChunk_of_sent (fragmentSpec m c N i) (contextBefore m N i)
        (N : Int) _ hsend hm' (by omega)
        (by
          simp only [hctx, messageAfter, List.length_take]
          omega)
        (by
          simp only [hctx, messageAfter, fragmentSpec, sliceSpec, List.length_drop,
            List.length_take]
          omega)
      refine ⟨fmt, sid, ?_⟩
      rw [hr]
      have hdata : (messageAfter m N i).data ++ (fragmentSpec m c N i).message.data
          = m.data.take (min ((i + 1) * N) m.data.length) := by
        simp only [messageAfter, fragmentSpec]
        have : min (i * N) m.data.length = i * N := by omega
        rw [this]
        apply take_append_slice
        omega
      simp only [hctx, hdata]
      simp [messageAfter]


theorem sendAll_of_ok (chunks : List rtmpChunk)
    (h : ∀ x ∈ chunks, (sendChunk [] x).2 = none) :
    sendAll chunks = some (chunks.map (fun x => (sendChunk [] x).1)) := by
  induction chunks with
  | nil => rfl
  | cons x xs ih =>
    have hx := h x (List.mem_cons_self x xs)
    have hxs := ih (fun y hy => h y (List.mem_cons_of_mem x hy))
    unfold sendAll
    cases hs : sendChunk [] x with
    | mk w e =>
      rw [hs] at hx
      simp only [] at hx
      subst hx
      simp only [hxs, Option.map_some', List.map_cons, hs]

theorem recvSequence_fragments (m : rtmpMessage) (c : Int) (N : Nat) (h : RoundTrips m N)
    (hlo : 2 ≤ c) (hhi : c ≤ 65599) :
    ∀ (j k : Nat), k + j = fragmentCount m.data.length N →
      ∃ decoded,
        recvSequence (N : Int) (contextBefore m N k)
            ((List.range' k j).map (fun i => (sendChunk [] (fragmentSpec m c N i)).1))
          = some decoded
        ∧ (1 ≤ j →
            decoded.getLast?.map (fun d => d.message) = some (messageAfter m N (k + j))) := by
  intro j
  induction j with
  | zero =>
    intro k _
    exact ⟨[], rfl, fun h0 => absurd h0 (by decide)⟩
  | succ j ih =>
    intro k hk
    obtain ⟨-, fmt, sid, hr⟩ := fragment_roundtrip m c N h hlo hhi k (by omega)
    obtain ⟨decoded, hd, hlast⟩ := ih (k + 1) (by omega)
    have hctx : contextBefore m N (k + 1) = some (messageAfter m N (k + 1)) := by
      simp [contextBefore]
    rw [hctx] at hd
    refine ⟨{ fmt := fmt, streamID := sid, message := messageAfter m N (k + 1) } :: decoded,
      ?_, ?_⟩
    · rw [List.range'_succ, List.map_cons]
      unfold recvSequence
      rw [hr]
      simp only []
      rw [hd]
      rfl
    · intro _
      by_cases hj : 1 ≤ j
      · have hl := hlast hj
        cases decoded with
        | nil => simp at hl
        | cons d ds =>
          rw [List.getLast?_cons_cons]
          rw [hl]
          congr 2
          omega
      · have hj0 : j = 0 := by omega
        subst hj0
        simp only [List.range'_zero, List.map_nil] at hd
        unfold recvSequence at hd
        simp only [Option.some.injEq] at hd
        subst hd
        rfl

/-- Off the escape the round-trip law of section 8 holds: a message with
`len(data) = length` in [1, 2^24), a timestamp in [0, 2^32) other than
`0xFFFFFF`, `extended = (timestamp > 0xFFFFFF)`, delta 0 and a message stream
id in [0, 2^32), which fits one chunk when its timestamp exceeds `0xFFFFFF`,
comes back unchanged for every chunk size `N ≥ 1` and every chunk stream id in
[2, 65599]. -/
theorem roundTrip_of_roundTrips (m : rtmpMessage) (c : Int) (N : Nat) (fuel : Nat)
    (h : RoundTrips m N) (hlo : 2 ≤ c) (hhi : c ≤ 65599) (hfuel : m.data.length ≤ fuel) :
    roundTrip m c (N : Int) fuel = some m := by
  have hN := h.chunkSize_pos
  have hcm := (chunkMessage_fragments m (fun (u : Unit) => (c, u)) () (N : Int) (by omega)
    fuel hfuel).1
  simp only [Int.toNat_ofNat] at hcm
  have hcount : 1 ≤ fragmentCount m.data.length N := by
    have := (lt_fragmentCount m.data.length N 0 hN).2 (by have := h.length_pos; omega)
    omega
  have hsend : sendAll ((List.range (fragmentCount m.data.length N)).map (fragmentSpec m c N))
      = some (((List.range (fragmentCount m.data.length N)).map (fragmentSpec m c N)).map
          (fun x => (sendChunk [] x).1)) := by
    apply sendAll_of_ok
    intro x hx
    obtain ⟨i, hi, rfl⟩ := List.mem_map.1 hx
    exact (fragment_roundtrip m c N h hlo hhi i (List.mem_range.1 hi)).1
  obtain ⟨decoded, hd, hlast⟩ := recvSequence_fragments m c N h hlo hhi
    (fragmentCount m.data.length N) 0 (by omega)
  have hctx : contextBefore m N 0 = none := rfl
  rw [hctx, ← List.range_eq_range'] at hd
  have hfinal : messageAfter m N (0 + fragmentCount m.data.length N) = m := by
    have := fragmentCount_mul_ge m.data.length N hN
    simp only [messageAfter, Nat.zero_add]
    rw [Nat.min_eq_right this, List.take_length]
  unfold roundTrip
  rw [hcm]
  simp only []
  rw [hsend]
  simp only [List.map_map]
  have hcomp : ((fun x => (sendChunk [] x).1) ∘ fragmentSpec m c N)
      = (fun i => (sendChunk [] (fragmentSpec m c N i)).1) := rfl
  rw [hcomp, hd]
  simp only []
  rw [hlast hcount, hfinal]


/-- C1 fails on the code.  A message with timestamp `0xFFFFFF` (five payload
bytes, not extended) is sent with `FF FF FF` in the 24-bit field and no
extended field; `recvChunk` takes `FF FF FF` for the escape, reads the first
four payload bytes as the timestamp and returns a message that is marked
extended, has timestamp `0x01020304` and data `05 00 00 00 00`.  And for a
message with timestamp `0x1000000` marked extended, `sendChunk` refuses the
second chunk that `chunkMessage` emits at chunk size 8 (format 3, delta 0),
so the round trip yields nothing; the same message in one chunk (chunk size
32) and the test message in four chunks do come back unchanged. -/
theorem roundTrip_fails_at_escape :
    roundTrip boundaryMessage 3 128 5
        = some { boundaryMessage with
                  extended := true, timestamp := 0x01020304, data := [5, 0, 0, 0, 0] }
      ∧ roundTrip boundaryMessage 3 128 5 ≠ some boundaryMessage
      ∧ sendChunk [] (fragmentSpec extendedMessage 3 8 1) = ([0xC3], some .timestampFits)
      ∧ roundTrip extendedMessage 3 8 25 = none
      ∧ roundTrip extendedMessage 3 32 25 = some extendedMessage
      ∧ roundTrip testMessage 3 8 25 = some testMessage := by
  decide

/-! ## The chunk stream id of the two longer basic headers -/

/-- What the code computes: whenever `recvChunk` decodes a chunk header on the
wire, the chunk stream id of a two-byte and of a three-byte basic header is
`(x + 64) mod 256`, where `x` is the byte after the first; the third byte
does not enter it. -/
theorem recvChunk_long_id (f : WireChunk) (prev : Option rtmpMessage) (rest : Reader)
    (N : Int) (c : rtmpChunk) (r' : Reader)
    (h : recvChunk (f.header (contextOf prev) ++ rest) (fun _ _ => prev) N = .ok (c, r'))
    (hb : f.b.val % 64 = 0 ∨ f.b.val % 64 = 1) :
    c.streamID = (((f.x.val + 64) % 256 : Nat) : Int) := by
  obtain ⟨d, hd⟩ := recvChunk_wire_frame f prev rest N c r' h
  subst hd
  rcases hb with hb | hb
  · simp [WireChunk.streamIDRead, hb]
  · simp [WireChunk.streamIDRead, hb]

/-- C11 fails on the code: after the first byte `C0` (format 3, low six bits
0) the id byte `C8`, `x = 200`, is decoded as chunk stream id 8 and not as
`200 + 64 = 264`. -/
theorem recvChunk_two_byte_id_wraps :
    recvChunk [0xC0, 0xC8] (fun _ _ => none) 8
        = .ok ({ fmt := 3, streamID := 8, message := rtmpMessage.zero }, [])
      ∧ (8 : Int) ≠ 200 + 64 := by
  decide

/-- C12 fails on the code: after the first byte `C1` (format 3, low six bits
1) the id bytes `00 01`, `x = 0` and `y = 1`, are decoded as chunk stream id
64 and not as `0 + 64 + 256 * 1 = 320`. -/
theorem recvChunk_three_byte_id_drops_high_byte :
    recvChunk [0xC1, 0x00, 0x01] (fun _ _ => none) 8
        = .ok ({ fmt := 3, streamID := 64, message := rtmpMessage.zero }, [])
      ∧ (64 : Int) ≠ 0 + 64 + 256 * 1 := by
  decide

/-- The first byte and the id that `recvChunk` computes from the basic header
`sendChunk` writes, for chunk stream ids of one or two header bytes up to 255:
the format and the id of the chunk sent. -/
theorem wireOf_streamIDRead (c : rtmpChunk) (hfmt : c.fmt.val ≤ 3)
    (hlo : 2 ≤ c.streamID) (hhi : c.streamID ≤ 255) :
    (wireOf c).b >>> 6 = c.fmt ∧ (wireOf c).streamIDRead = c.streamID := by
  obtain ⟨-, hf⟩ := wireOf_basicHeader c hfmt hlo (by omega)
  have hshl : (c.fmt <<< 6).val = c.fmt.val * 64 := by
    rw [shl6_val]; omega
  constructor
  · apply Fin.ext
    rw [shr6_val]
    exact hf
  · by_cases h1 : c.streamID < 64
    · have hbh : sendBasicHeader [] c = some [(c.fmt <<< 6) ||| toByte c.streamID] := by
        simp [sendBasicHeader, h1]
      have hid : (toByte c.streamID).val = c.streamID.toNat := by
        rw [toByte_val]; omega
      have hb : ((c.fmt <<< 6) ||| toByte c.streamID).val
          = c.fmt.val * 64 + c.streamID.toNat := by
        rw [shl6_lor_val _ _ hfmt (by omega), hid]
      have hm0 : ¬ ((c.fmt <<< 6) ||| toByte c.streamID).val % 64 = 0 := by omega
      have hm1 : ¬ ((c.fmt <<< 6) ||| toByte c.streamID).val % 64 = 1 := by omega
      simp only [wireOf, WireChunk.streamIDRead, hbh, Option.getD_some, List.getD_cons_zero,
        if_neg hm0, if_neg hm1]
      omega
    · have h2 : c.streamID < 320 := by omega
      have hbh : sendBasicHeader [] c = some [c.fmt <<< 6, toByte (c.streamID - 64)] := by
        simp [sendBasicHeader, h1, h2]
      have hm0 : (c.fmt <<< 6).val % 64 = 0 := by omega
      have hx : (toByte (c.streamID - 64)).val = (c.streamID - 64).toNat := by
        rw [toByte_val]; omega
      simp only [wireOf, WireChunk.streamIDRead, hbh, Option.getD_some, List.getD_cons_zero,
        List.getD_cons_succ, if_pos hm0, hx]
      omega

/-- Single-chunk round trip where it holds: a format-0 chunk with chunk stream id
in [2, 255] and a timestamp other than `0xFFFFFF` is sent without error, and
`recvChunk` without context returns the chunk sent (its delta set to 0, which
a format-0 header does not carry) and consumes the whole input. -/
theorem recvChunk_of_sent_fmt0 (c : rtmpChunk) (N : Int) (hfmt : c.fmt = 0)
    (hlo : 2 ≤ c.streamID) (hhi : c.streamID ≤ 255)
    (hlen0 : 0 ≤ c.message.length) (hlen : c.message.length < 16777216)
    (hsid0 : 0 ≤ c.message.streamID) (hsid : c.message.streamID < 4294967296)
    (hts0 : 0 ≤ c.message.timestamp) (hts : c.message.timestamp < 4294967296)
    (hne : c.message.timestamp ≠ 0xFFFFFF)
    (hext : c.message.extended = decide (c.message.timestamp > 0xFFFFFF))
    (hN : 0 ≤ N)
    (hdata : (c.message.data.length : Int) = min c.message.length N) :
    (sendChunk [] c).2 = none
    ∧ recvChunk (sendChunk [] c).1 (fun _ _ => none) N
        = .ok ({ c with message := { c.message with timestampDelta := 0 } }, []) := by
  have hfv : c.fmt.val ≤ 3 := by rw [hfmt]; decide
  obtain ⟨hsend, hm⟩ := sendChunk_fmt0_wire c rtmpMessage.zero hfmt hlo (by omega) hlen0 hlen
    hsid0 hsid hts0 hts hne hext rfl
  obtain ⟨hb, hid⟩ := wireOf_streamIDRead c hfv hlo hhi
  have hzl : (rtmpMessage.zero.data.length : Int) = 0 := rfl
  have key := recvChunk_wire (wireOf c) (fun _ _ => none) c.message.data N rtmpMessage.zero rfl hN
    (by rw [hm, hzl]; exact hlen0)
    (by rw [hm, hzl]; simp only [sub_zero]; omega)
  rw [hm, hb, hid, hzl] at key
  simp only [sub_zero, ← hdata, Int.toNat_ofNat, List.take_length, List.drop_length] at key
  constructor
  · rw [hsend]
  · rw [hsend, key]
    simp [rtmpMessage.zero]

/-- C13 fails on the code: the format-0 chunk of the test message on chunk
stream 300 is sent without error, as basic header `00 EC` and the message
header and payload of the test vector, and `recvChunk` decodes these bytes as
chunk stream 44 = (236 + 64) mod 256. -/
theorem recvChunk_of_sent_id_300 :
    sendChunk [] ⟨0, 300, testMessage⟩ = (0x00 :: 0xEC :: wholeInput.drop 1, none)
      ∧ recvChunk (sendChunk [] ⟨0, 300, testMessage⟩).1 (fun _ _ => none) 32
        = .ok (⟨0, 44, testMessage⟩, [])
      ∧ (44 : Int) ≠ 300 := by
  decide

/-- The header layout under a context that is not extended, for a 24-bit field
other than `0xFFFFFF`: no extended field, and the 24-bit field is the
timestamp value. -/
theorem wire_unescaped (f : WireChunk) (p : rtmpMessage) (hp : p.extended = false)
    (ht : be24Value f.t1 f.t2 f.t3 ≠ 0xFFFFFF) :
    f.extended p = false ∧ f.timestampValue p = be24Value f.t1 f.t2 f.t3 := by
  have he : f.extended p = false := by
    simp [WireChunk.extended, hp, ht]
  exact ⟨he, by simp [WireChunk.timestampValue, he]⟩

/-- The header layout under an extended context: whatever the format and the
24-bit field, four more bytes follow the message header and are the
timestamp value. -/
theorem wire_extended_of_context (f : WireChunk) (p : rtmpMessage) (hp : p.extended = true) :
    f.extended p = true ∧ f.timestampValue p = be32Value f.e1 f.e2 f.e3 f.e4 := by
  have he : f.extended p = true := by
    simp [WireChunk.extended, hp]
  exact ⟨he, by simp [WireChunk.timestampValue, he]⟩

/-- Copying at most `k` bytes into a buffer of `k` bytes leaves `k` bytes. -/
theorem writeAt_length (k : Nat) (bs : List Byte) (h : bs.length ≤ k) :
    (writeAt (List.replicate k 0) 0 bs).length = k := by
  simp only [writeAt, List.take_zero, List.nil_append, Nat.zero_add, List.length_append,
    List.length_drop, List.length_replicate]
  omega

/-- The payload buffer keeps its length, whatever the read returns. -/
theorem readInto_length (r r' : Reader) (k : Nat) (d : List Byte)
    (h : readInto r (List.replicate k 0) 0 k = some (r', d)) : d.length = k := by
  unfold readInto at h
  cases r with
  | nil =>
    simp only [Reader.Read, Nat.sub_zero] at h
    split_ifs at h with hk
    · simp only [Option.some.injEq, Prod.mk.injEq] at h
      rw [← h.2]
      exact writeAt_length k [] (by simp)
  | cons a r =>
    simp only [Reader.Read, Nat.sub_zero, Option.some.injEq, Prod.mk.injEq] at h
    rw [← h.2]
    exact writeAt_length k _ (by rw [List.length_take]; exact Nat.min_le_left _ _)

/-- Whenever `recvChunk` returns a chunk, whatever the input, the context and
the chunk size, its data is no longer than its length field. -/
theorem recvChunk_data_le_length (r : Reader) (prev : prevMessageFunc) (N : Int)
    (c : rtmpChunk) (r' : Reader) (h : recvChunk r prev N = .ok (c, r')) :
    (c.message.data.length : Int) ≤ c.message.length := by
  unfold recvChunk at h
  cases hh : recvHeader r prev with
  | error e => rw [hh] at h; cases h
  | panic => rw [hh] at h; cases h
  | ok s =>
    rw [hh] at h
    simp only [] at h
    unfold recvPayload at h
    dsimp only at h
    split_ifs at h with h1 h2 h2
    all_goals
      split at h
      · cases h
      · rename_i r1 d hr
        have hl := readInto_length _ _ _ _ hr
        simp only [Outcome.ok.injEq, Prod.mk.injEq] at h
        rw [← h.1]
        simp only [List.length_append, hl, Nat.cast_add]
        omega

/-- C16 fails on the code: the two bytes `83 00`, a proper prefix of the
format-2 chunk `83 00 00 14` of a message without payload, are decoded without
error (as delta 0 where the whole chunk gives delta 20), and the first 36 of
the 37 bytes of the test chunk are decoded without error, the missing payload
byte returned as 0. -/
theorem recvChunk_accepts_truncated :
    recvChunk [0x83, 0x00, 0x00, 0x14] (fun _ _ => none) 8
        = .ok (⟨2, 3, { rtmpMessage.zero with timestamp := 20, timestampDelta := 20 }⟩, [])
      ∧ recvChunk [0x83, 0x00] (fun _ _ => none) 8 = .ok (⟨2, 3, rtmpMessage.zero⟩, [])
      ∧ recvChunk wholeInput (fun _ _ => none) 32 = .ok (⟨0, 3, testMessage⟩, [])
      ∧ wholeInput.length = 37
      ∧ recvChunk (wholeInput.take 36) (fun _ _ => none) 32
        = .ok (⟨0, 3, { testMessage with data := testMessage.data.take 24 ++ [0] }⟩, []) := by
  decide

/-- C18 fails on the code: `shortInput` is what `sendChunk` writes for the
format-0 chunk of `shortMessage` (24-bit field 2920, no extended field), and
under a context whose extended flag is true `recvChunk` reads its first four
payload bytes `01 02 03 04` as the timestamp and returns the message marked
extended, with the payload `05 00 00 00 00`. -/
theorem recvChunk_sticky_extended :
    sendChunk [] ⟨0, 3, shortMessage⟩ = (shortInput, none)
      ∧ extendedContext.extended = true
      ∧ recvChunk shortInput (fun _ _ => some extendedContext) 32
        = .ok (⟨0, 3, { shortMessage with extended := true, timestamp := 0x01020304,
                                          data := [5, 0, 0, 0, 0] }⟩, [])
      ∧ (0x01020304 : Int) ≠ 2920 := by
  decide

/-- C20 fails on the code: under the complete test message as context (25
bytes of data, length 25), the format-0 chunk `shortInput` with length field 5
makes the payload read size 5 - 25 negative and the allocation panics. -/
theorem recvChunk_panics_on_shorter_length :
    (0 : Int) ≤ testMessage.data.length
      ∧ (testMessage.data.length : Int) ≤ testMessage.length
      ∧ recvChunk shortInput (fun _ _ => some testMessage) 32 = .panic := by
  decide

/-- C15: extended-timestamp presence for format 3.  For every context `p` (the
zero message when there is none) with `len(p.data) ≤ p.length`, every chunk
size `N ≥ 0` and every format-3 basic header followed by at least
`(4 if p.extended else 0) + min(p.length - len(p.data), N)` bytes, `recvChunk`
returns a format-3 chunk and leaves the input after exactly that many bytes:
it skips four bytes between the basic header and the payload exactly when
`p.extended` is true, the payload read is the `min(p.length - len(p.data), N)`
bytes after them, and the number of bytes consumed is the basic header length
plus `(4 if p.extended else 0)` plus `min(p.length - len(p.data), N)`. -/
theorem recvChunk_fmt3_consumed (f : WireChunk) (prev : Option rtmpMessage) (tail : Reader)
    (N : Int) (hf : f.fmt = 3) (hN : 0 ≤ N)
    (hlen : ((contextOf prev).data.length : Int) ≤ (contextOf prev).length)
    (hin : ((if (contextOf prev).extended then 4 else 0 : Nat) : Int)
        + min ((contextOf prev).length - (contextOf prev).data.length) N ≤ (tail.length : Int)) :
    ∃ c, recvChunk (f.basicHeader ++ tail) (fun _ _ => prev) N
          = .ok (c, tail.drop ((if (contextOf prev).extended then 4 else 0)
              + (min ((contextOf prev).length - (contextOf prev).data.length) N).toNat))
      ∧ c.fmt = 3
      ∧ c.message.data = (contextOf prev).data
          ++ (tail.drop (if (contextOf prev).extended then 4 else 0)).take
              (min ((contextOf prev).length - (contextOf prev).data.length) N).toNat
      ∧ (((f.basicHeader ++ tail).length : Int)
            - ((tail.drop ((if (contextOf prev).extended then 4 else 0)
                + (min ((contextOf prev).length - (contextOf prev).data.length) N).toNat)).length
                : Int)
          = (f.basicHeader.length : Int)
            + ((if (contextOf prev).extended then 4 else 0 : Nat) : Int)
            + min ((contextOf prev).length - (contextOf prev).data.length) N) := by
  have hb : f.b >>> 6 = 3 := Fin.ext (by rw [shr6_val]; exact hf)
  have hmsg : ∀ g : WireChunk, g.fmt = 3 →
      (g.message (contextOf prev)).length = (contextOf prev).length := by
    intro g hg
    simp [WireChunk.message, hg]
  have hext : ∀ g : WireChunk, g.fmt = 3 →
      g.extended (contextOf prev) = (contextOf prev).extended := by
    intro g hg
    simp [WireChunk.extended, hg]
  cases he : (contextOf prev).extended with
  | false =>
    rw [he] at hin
    simp only [Bool.false_eq_true, if_false, Nat.cast_zero, zero_add] at hin ⊢
    have hh : f.header (contextOf prev) = f.basicHeader := by
      simp [WireChunk.header, hf, hext f hf, he]
    have key := recvChunk_wire f (fun _ _ => prev) tail N (contextOf prev)
      (recvInherit_eq prev) hN (by rw [hmsg f hf]; exact hlen) (by rw [hmsg f hf]; exact hin)
    rw [hh, hmsg f hf, hb] at key
    refine ⟨_, key, rfl, rfl, ?_⟩
    simp only [List.length_append, List.length_drop, List.drop_zero, Nat.cast_add, add_zero]
    omega
  | true =>
    rw [he] at hin
    simp only [if_true, Nat.cast_ofNat] at hin ⊢
    have h4 : 4 ≤ tail.length := by omega
    match tail, h4, hin with
    | e1 :: e2 :: e3 :: e4 :: rest, _, hin =>
      have hg : ({ f with e1 := e1, e2 := e2, e3 := e3, e4 := e4 } : WireChunk).fmt = 3 := hf
      have hh : ({ f with e1 := e1, e2 := e2, e3 := e3, e4 := e4 } : WireChunk).header
          (contextOf prev) ++ rest = f.basicHeader ++ e1 :: e2 :: e3 :: e4 :: rest := by
        simp only [WireChunk.header, hg, hext _ hg, he]
        simp [WireChunk.basicHeader]
      simp only [List.length_cons, Nat.cast_add, Nat.cast_one] at hin
      have key := recvChunk_wire { f with e1 := e1, e2 := e2, e3 := e3, e4 := e4 }
        (fun _ _ => prev) rest N (contextOf prev)
        (recvInherit_eq prev) hN (by rw [hmsg _ hg]; exact hlen)
        (by rw [hmsg _ hg]; omega)
      rw [hh, hmsg _ hg] at key
      rw [show (4 + (min ((contextOf prev).length - ((contextOf prev).data.length : Int)) N).toNat)
          = 4 + (min ((contextOf prev).length - ((contextOf prev).data.length : Int)) N).toNat
        from rfl, ← List.drop_drop]
      refine ⟨_, key, hb, rfl, ?_⟩
      · simp only [List.length_append, List.length_drop, List.length_cons, Nat.cast_add,
          Nat.cast_one]
        omega

/-- The last chunk of the third test case, `C3 05` under a context that is not
extended, and the same chunk with four bytes before its payload under the
same context marked extended: both give the 25 bytes of the test message and
leave nothing unread. -/
theorem recvChunk_fmt3_consumed_witness :
    (∃ c, recvChunk [0xC3, 0x05] (fun _ _ => some thirdMessage) 8 = .ok (c, [])
        ∧ c.message.data = testMessage.data)
      ∧ (∃ c, recvChunk [0xC3, 0x00, 0x00, 0x00, 0x2A, 0x05]
            (fun _ _ => some { thirdMessage with extended := true }) 8 = .ok (c, [])
          ∧ c.message.data = testMessage.data) := by
  obtain ⟨c, h, -, hd, -⟩ := recvChunk_fmt3_consumed lastWireChunk (some thirdMessage)
    [0x05] 8 (by decide) (by decide) (by decide) (by decide)
  obtain ⟨c2, h2, -, hd2, -⟩ := recvChunk_fmt3_consumed lastWireChunk
    (some { thirdMessage with extended := true }) [0x00, 0x00, 0x00, 0x2A, 0x05] 8
    (by decide) (by decide) (by decide) (by decide)
  exact ⟨⟨c, h, hd⟩, ⟨c2, h2, hd2⟩⟩

/-- C14 fails as stated: under the complete five-byte `shortMessage` as context,
the format-0 chunk `wholeInput` (length field 25, chunk size 32) does not give
the first 25 payload bytes: the data returned is the five bytes of the
context followed by the first 20 payload bytes, and the last five are left
unread. -/
theorem recvChunk_keeps_context_data :
    (shortMessage.data.length : Int) = shortMessage.length
      ∧ recvChunk wholeInput (fun _ _ => some shortMessage) 32
        = .ok (⟨0, 3, { testMessage with data := shortMessage.data ++ testMessage.data.take 20 }⟩,
               testMessage.data.drop 20)
      ∧ shortMessage.data ++ testMessage.data.take 20 ≠ testMessage.data.take 25 := by
  decide

/-- C14, amended: `recvChunk` never starts a fresh buffer.  For every context
`p`, complete or not, every format-0 or format-1 chunk header whose length
field `L` is at least `len(p.data)`, every chunk size `N ≥ 0` and at least
`min(L - len(p.data), N)` payload bytes after the header, `recvChunk` returns
a message of length `L` whose data is `p.data` followed by the first
`min(L - len(p.data), N)` payload bytes, and leaves the rest of the input
unread. -/
theorem recvChunk_appends_to_context (f : WireChunk) (p : rtmpMessage) (rest : Reader)
    (N : Int) (hf : f.fmt = 0 ∨ f.fmt = 1) (hN : 0 ≤ N)
    (hL : (p.data.length : Int) ≤ (be24Value f.l1 f.l2 f.l3 : Int))
    (hin : min ((be24Value f.l1 f.l2 f.l3 : Int) - p.data.length) N ≤ (rest.length : Int)) :
    ∃ c, recvChunk (f.header p ++ rest) (fun _ _ => some p) N
          = .ok (c, rest.drop (min ((be24Value f.l1 f.l2 f.l3 : Int) - p.data.length) N).toNat)
      ∧ c.message.length = (be24Value f.l1 f.l2 f.l3 : Int)
      ∧ c.message.data = p.data
          ++ rest.take (min ((be24Value f.l1 f.l2 f.l3 : Int) - p.data.length) N).toNat := by
  have hl : (f.message p).length = (be24Value f.l1 f.l2 f.l3 : Int) := by
    rcases hf with h | h <;> simp [WireChunk.message, h]
  have key := recvChunk_wire f (fun _ _ => some p) rest N p (recvInherit_eq (some p)) hN
    (by rw [hl]; exact hL) (by rw [hl]; exact hin)
  rw [hl] at key
  exact ⟨_, key, hl, rfl⟩

/-- The chunk `wholeInput` under the complete `shortMessage`: the data returned
starts with the five bytes of the context. -/
theorem recvChunk_appends_to_context_witness :
    ∃ c, recvChunk wholeInput (fun _ _ => some shortMessage) 32
          = .ok (c, testMessage.data.drop 20)
      ∧ c.message.length = 25
      ∧ c.message.data = shortMessage.data ++ testMessage.data.take 20 :=
  recvChunk_appends_to_context firstWireChunk shortMessage testMessage.data 32
    (Or.inl rfl) (by decide) (by decide) (by decide)

/-- C19 fails as stated: for the test message with its payload removed,
`chunkMessage` at chunk size 8 returns without a single call of `chunkFunc`,
the chunk stream id callback called once. -/
theorem chunkMessage_empty_payload :
    chunkMessage { testMessage with data := [] } (fun (n : Nat) => ((3 : Int), n + 1)) 0 8 25
      = (.returned [], 1) := by
  decide

/-- C19, amended: for every message with at least one payload byte, every
chunk size `N ≥ 1` and fuel for `len(data)` iterations, `chunkMessage` returns
and the first chunk it emits has format 0, the chunk stream id the callback
gave, every header field of the message and the first `min(N, len(data))`
payload bytes. -/
theorem chunkMessage_first_chunk {σ : Type} (m : rtmpMessage) (idf : σ → Int × σ) (s : σ)
    (N : Int) (hN : 1 ≤ N) (hne : m.data ≠ []) (fuel : Nat) (hfuel : m.data.length ≤ fuel) :
    ∃ others, chunkMessage m idf s N fuel
      = (.returned ({ fmt := 0, streamID := (idf s).1,
                      message := { m with data := m.data.take (min N.toNat m.data.length) } }
                    :: others), (idf s).2) := by
  have hN' : 1 ≤ N.toNat := by omega
  have hcast : ((N.toNat : Nat) : Int) = N := by omega
  have hpos : 0 < m.data.length := List.length_pos.2 hne
  have hcnt : 0 < fragmentCount m.data.length N.toNat :=
    (lt_fragmentCount m.data.length N.toNat 0 hN').2 (by omega)
  have h := chunkLoop_spec m (idf s).1 N.toNat hN' fuel 0 []
    (by have := fragmentCount_le m.data.length N.toNat hN'; omega)
  rw [hcast] at h
  simp only [Nat.zero_mul, Nat.min_zero, Nat.sub_zero, List.nil_append] at h
  obtain ⟨k, hk⟩ : ∃ k, fragmentCount m.data.length N.toNat = k + 1 :=
    ⟨fragmentCount m.data.length N.toNat - 1, by omega⟩
  rw [hk, List.range'_succ, List.map_cons] at h
  refine ⟨(List.range' (0 + 1) k).map (fragmentSpec m (idf s).1 N.toNat), ?_⟩
  unfold chunkMessage
  simp only [h]
  simp [fragmentSpec, sliceSpec]

/-- The test message at chunk size 8: the first chunk carries its first eight
bytes. -/
theorem chunkMessage_first_chunk_witness :
    ∃ others, chunkMessage testMessage (fun (n : Nat) => ((3 : Int), n + 1)) 0 8 25
      = (.returned ({ fmt := 0, streamID := 3,
                      message := { testMessage with data := testMessage.data.take 8 } }
                    :: others), 1) :=
  chunkMessage_first_chunk testMessage (fun (n : Nat) => ((3 : Int), n + 1)) 0 8 (by decide)
    (by decide) 25 (by decide)

/-- A read that finds a segment of exactly `len(buf)` bytes: the buffer holds
the segment and the segment is consumed. -/
theorem connRead_full (seg : List Byte) (rest : List (List Byte)) (w : List Byte) (n : Nat)
    (h : seg.length = n) :
    Conn.Read { incoming := seg :: rest, written := w } (List.replicate n 0)
      = (some seg, { incoming := rest, written := w }) := by
  subst h
  simp [Conn.Read, writeAt]

theorem randBytes_length (n : Nat) (gen : Nat → Byte) : (randBytes n gen).length = n := by
  simp [randBytes]

/-- C17: handshake acceptance.  For every peer that delivers, each in one full
read, an S0 byte `s0`, a 1536-byte block `S1` and a 1536-byte block `S2`,
whatever was written before, whatever follows and whatever the clock says:
`Handshake` writes C0 and returns the version error when `s0` is not 3;
otherwise it writes C1 (eight zero bytes and the 1528 bytes `rand1` of
`randBytes`) and C2, and returns the mismatch error when the last 1528 bytes
of `S2` differ from `rand1`, and nil when they are equal. -/
theorem Handshake_outcome (s0 : Byte) (S1 S2 : List Byte) (more : List (List Byte))
    (w : List Byte) (gen : Nat → Byte) (timeC1 timeS1 : Int)
    (h1 : S1.length = 1536) (h2 : S2.length = 1536) :
    (randBytes 1528 gen).length = 1528
      ∧ (S2.drop 8).length = 1528
      ∧ (s0 ≠ 3 →
          Handshake { incoming := [s0] :: S1 :: S2 :: more, written := w } gen timeC1 timeS1
            = ({ incoming := S1 :: S2 :: more, written := w ++ [3] }, some .versionMismatch))
      ∧ (s0 = 3 → S2.drop 8 ≠ randBytes 1528 gen →
          Handshake { incoming := [s0] :: S1 :: S2 :: more, written := w } gen timeC1 timeS1
            = ({ incoming := more,
                 written := w ++ [3] ++ [0, 0, 0, 0] ++ [0, 0, 0, 0] ++ randBytes 1528 gen
                   ++ S1.take 4
                   ++ bigEndianPutUint32 (toUint32 (Int.tdiv (timeS1 - timeC1) 1000))
                   ++ S1.drop 8 }, some .randomMismatch))
      ∧ (s0 = 3 → S2.drop 8 = randBytes 1528 gen →
          Handshake { incoming := [s0] :: S1 :: S2 :: more, written := w } gen timeC1 timeS1
            = ({ incoming := more,
                 written := w ++ [3] ++ [0, 0, 0, 0] ++ [0, 0, 0, 0] ++ randBytes 1528 gen
                   ++ S1.take 4
                   ++ bigEndianPutUint32 (toUint32 (Int.tdiv (timeS1 - timeC1) 1000))
                   ++ S1.drop 8 }, none)) := by
  have hS0 : ∀ w', Conn.Read { incoming := [s0] :: S1 :: S2 :: more, written := w' }
      (List.replicate 1 0) = (some [s0], { incoming := S1 :: S2 :: more, written := w' }) :=
    fun w' => connRead_full [s0] _ w' 1 rfl
  have hS1 : ∀ w', Conn.Read { incoming := S1 :: S2 :: more, written := w' }
      (List.replicate 1536 0) = (some S1, { incoming := S2 :: more, written := w' }) :=
    fun w' => connRead_full S1 _ w' 1536 h1
  have hS2 : ∀ w', Conn.Read { incoming := S2 :: more, written := w' }
      (List.replicate 1536 0) = (some S2, { incoming := more, written := w' }) :=
    fun w' => connRead_full S2 _ w' 1536 h2
  have hz : bigEndianPutUint32 0 = [0, 0, 0, 0] := by decide
  refine ⟨randBytes_length _ _, by rw [List.length_drop, h2], ?_, ?_, ?_⟩
  · intro hv
    have hv' : ([s0] : List Byte).getD 0 0 ≠ protocolVersion := hv
    unfold Handshake
    simp only [Conn.Write, hS0, if_pos hv']
    rfl
  · intro hv hne
    have hv' : ¬ ([s0] : List Byte).getD 0 0 ≠ protocolVersion := fun h => h hv
    unfold Handshake
    simp only [Conn.Write, hS0, if_neg hv', hS1, hS2, if_pos (Ne.symm hne), hz]
    rfl
  · intro hv he
    have hv' : ¬ ([s0] : List Byte).getD 0 0 ≠ protocolVersion := fun h => h hv
    have he' : ¬ randBytes 1528 gen ≠ S2.drop 8 := fun h => h he.symm
    unfold Handshake
    simp only [Conn.Write, hS0, if_neg hv', hS1, hS2, if_neg he', hz]
    rfl

theorem peerS1_length : peerS1.length = 1536 := List.length_replicate _ _

theorem peerS2_length : peerS2.length = 1536 := by
  unfold peerS2
  rw [List.length_append, randBytes_length]
  rfl

theorem peerS2_echo : peerS2.drop 8 = randBytes 1528 countingGen := by
  unfold peerS2
  simp only [List.cons_append, List.nil_append, List.drop_succ_cons, List.drop_zero]

theorem peerS2Zero_mismatch : peerS2Zero.drop 8 ≠ randBytes 1528 countingGen := by
  intro h
  have h1 : (1 : Byte) ∈ randBytes 1528 countingGen :=
    List.mem_map.2 ⟨1, List.mem_range.2 (by decide), rfl⟩
  rw [← h] at h1
  have h2 := List.eq_of_mem_replicate (List.mem_of_mem_drop h1)
  exact absurd h2 (by decide)

/-- A peer that answers version 3 and echoes C1 is accepted; a peer that
answers version 2 gets the version error; a peer that answers version 3 and
sends zeros as S2 gets the mismatch error. -/
theorem Handshake_outcome_witness :
    (Handshake { incoming := [[3], peerS1, peerS2], written := [] } countingGen 0 5000000).2
        = none
      ∧ (Handshake { incoming := [[2], peerS1, peerS2], written := [] } countingGen 0 5000000).2
        = some .versionMismatch
      ∧ (Handshake { incoming := [[3], peerS1, peerS2Zero], written := [] }
          countingGen 0 5000000).2 = some .randomMismatch :=
  ⟨congrArg Prod.snd ((Handshake_outcome 3 peerS1 peerS2 [] [] countingGen 0 5000000
      peerS1_length peerS2_length).2.2.2.2 rfl peerS2_echo),
   congrArg Prod.snd ((Handshake_outcome 2 peerS1 peerS2 [] [] countingGen 0 5000000
      peerS1_length peerS2_length).2.2.1 (by decide)),
   congrArg Prod.snd ((Handshake_outcome 3 peerS1 peerS2Zero [] [] countingGen 0 5000000
      peerS1_length (List.length_replicate _ _)).2.2.2.1 rfl peerS2Zero_mismatch)⟩

end Broadcast
